import Mathlib

/-!
Verification development for the openplanetdata r2index service: a shallow
embedding of its file-index store, tag index, search and grouping engine,
nested index materializer, download bucketizer and download-analytics
aggregators, together with theorems about the behaviour of those operations.

The relational store (Cloudflare D1 / SQLite) is modelled as plain Lean lists:
one list of file records, one list of (file_id, tag) association rows, and one
append-only list of download events.  Each exported query function of
src/db/queries.ts and src/db/downloads.ts is translated into a pure Lean
function over that state; the semantics of each SQL statement (WHERE filters,
GROUP BY, COUNT, COUNT(DISTINCT ...), ORDER BY, LIMIT/OFFSET, LEFT JOIN and
the unique index on (remote_path, remote_filename, remote_version)) is spelled
out directly on the lists.
-/

namespace R2Index

/-- A JSON-like value, modelling the `unknown` values stored in a record's
free-form `extra` map (`z.record(z.string(), z.unknown())`). -/
inductive JVal where
  | jnull : JVal
  | jbool : Bool → JVal
  | jnum : Int → JVal
  | jstr : String → JVal
  | jarr : List JVal → JVal
  | jobj : List (String × JVal) → JVal

/-- One row of the `files` table (`FileRecord` in src/types).  String columns
that are nullable in the schema are `Option String`; `extra` holds the parsed
JSON object (the TEXT column stores `JSON.stringify` of it and `parseRecord`
parses it back, an identity round trip in this model); `deprecated` is the
0/1 INTEGER column read back as a Bool by `parseRecord`. -/
structure FileRecord where
  id : String
  name : Option String
  bucket : String
  category : String
  entity : String
  extension : String
  media_type : String
  remote_path : String
  remote_filename : String
  remote_version : String
  metadata_path : Option String
  size : Option Int
  checksum_md5 : Option String
  checksum_sha1 : Option String
  checksum_sha256 : Option String
  checksum_sha512 : Option String
  extra : Option (List (String × JVal))
  deprecated : Bool
  deprecation_reason : String
  created : Int
  updated : Int

/-- One row of the `file_downloads` table: the mirrored location tuple, the
client attributes, the write-time timestamp and the three precomputed
time-bucket columns. -/
structure DownloadEvent where
  id : String
  bucket : String
  remote_path : String
  remote_filename : String
  remote_version : String
  ip_address : String
  user_agent : Option String
  downloaded_at : Int
  hour_bucket : Int
  day_bucket : Int
  month_bucket : Int
deriving DecidableEq

/-- The whole database state: the `files` table, the `file_tags` association
table (rows are (file_id, tag) pairs) and the `file_downloads` table. -/
structure DB where
  files : List FileRecord
  fileTags : List (String × String)
  downloads : List DownloadEvent

/-- The (remote_path, remote_filename, remote_version) triple covered by the
unique index `idx_files_remote_unique` in the schema. -/
def remoteTriple (f : FileRecord) : String × String × String :=
  (f.remote_path, f.remote_filename, f.remote_version)

/-- The full location tuple (bucket, remote_path, remote_filename,
remote_version) of a file record, the natural key used by `upsertFile`. -/
def locationTuple (f : FileRecord) : String × String × String × String :=
  (f.bucket, f.remote_path, f.remote_filename, f.remote_version)

/-- The location tuple carried by a download event. -/
def eventTuple (d : DownloadEvent) : String × String × String × String :=
  (d.bucket, d.remote_path, d.remote_filename, d.remote_version)

-- ===========================================================================
-- Calendar arithmetic: the UTC getters of the ECMAScript Date object
-- ===========================================================================

/-- Proleptic-Gregorian civil date (year, month 1..12, day 1..31) of a day
count relative to 1970-01-01, as computed by the UTC accessors of the
ECMAScript `Date` object used in `computeBuckets`.  All divisions are floor
divisions, matching JavaScript `Math.floor` arithmetic on negatives. -/
def civilFromDays (z0 : Int) : Int × Int × Int :=
  let z := z0 + 719468
  let era := Int.fdiv z 146097
  let doe := z - era * 146097
  let yoe := Int.fdiv (doe - Int.fdiv doe 1460 + Int.fdiv doe 36524 - Int.fdiv doe 146096) 365
  let y := yoe + era * 400
  let doy := doe - (365 * yoe + Int.fdiv yoe 4 - Int.fdiv yoe 100)
  let mp := Int.fdiv (5 * doy + 2) 153
  let d := doy - Int.fdiv (153 * mp + 2) 5 + 1
  let m := mp + (if mp < 10 then 3 else -9)
  (if m ≤ 2 then y + 1 else y, m, d)

/-- `new Date(t).getUTCFullYear()` for an epoch-millisecond timestamp. -/
def utcYear (t : Int) : Int := (civilFromDays (Int.fdiv t 86400000)).1

/-- `new Date(t).getUTCMonth() + 1` (months 1..12) for an epoch-millisecond
timestamp. -/
def utcMonth (t : Int) : Int := (civilFromDays (Int.fdiv t 86400000)).2.1

/-- The three derived time-bucket keys of `computeBuckets` in
src/db/downloads.ts: hour and day buckets floor the timestamp to the bucket
width in epoch ms, the month bucket is UTC-year*100 + UTC-month. -/
def computeBuckets (downloadedAt : Int) : Int × Int × Int :=
  (Int.fdiv downloadedAt 3600000 * 3600000,
   Int.fdiv downloadedAt 86400000 * 86400000,
   utcYear downloadedAt * 100 + utcMonth downloadedAt)

/-- Hour bucket of `computeBuckets`. -/
def hourBucketOf (t : Int) : Int := (computeBuckets t).1

/-- Day bucket of `computeBuckets`. -/
def dayBucketOf (t : Int) : Int := (computeBuckets t).2.1

/-- Month bucket of `computeBuckets`. -/
def monthBucketOf (t : Int) : Int := (computeBuckets t).2.2

-- ===========================================================================
-- C7 helper lemmas
-- ===========================================================================

theorem utcMonth_range (t : Int) : 1 ≤ utcMonth t ∧ utcMonth t ≤ 12 := by
  unfold utcMonth
  generalize Int.fdiv t 86400000 = z
  unfold civilFromDays
  simp only [Int.fdiv_eq_ediv _ (by norm_num : (0:Int) ≤ 146097),
    Int.fdiv_eq_ediv _ (by norm_num : (0:Int) ≤ 1460),
    Int.fdiv_eq_ediv _ (by norm_num : (0:Int) ≤ 36524),
    Int.fdiv_eq_ediv _ (by norm_num : (0:Int) ≤ 146096),
    Int.fdiv_eq_ediv _ (by norm_num : (0:Int) ≤ 365),
    Int.fdiv_eq_ediv _ (by norm_num : (0:Int) ≤ 4),
    Int.fdiv_eq_ediv _ (by norm_num : (0:Int) ≤ 100),
    Int.fdiv_eq_ediv _ (by norm_num : (0:Int) ≤ 153)]
  split <;> omega

theorem hour_fdiv_bounds (t : Int) :
    Int.fdiv t 3600000 * 3600000 ≤ t ∧ t < Int.fdiv t 3600000 * 3600000 + 3600000 := by
  rw [Int.fdiv_eq_ediv _ (by norm_num : (0:Int) ≤ 3600000)]
  omega

theorem day_fdiv_bounds (t : Int) :
    Int.fdiv t 86400000 * 86400000 ≤ t ∧ t < Int.fdiv t 86400000 * 86400000 + 86400000 := by
  rw [Int.fdiv_eq_ediv _ (by norm_num : (0:Int) ≤ 86400000)]
  omega

/-- C7: for every timestamp T, the hour bucket satisfies
hour_bucket(T) ≤ T < hour_bucket(T) + 3600000; the day bucket is a multiple
of 86400000 with day_bucket(T) ≤ T < day_bucket(T) + 86400000; and the month
bucket equals UTC-year(T) * 100 + UTC-month(T) with the month in 1..12. -/
theorem computeBuckets_spec (T : Int) :
    hourBucketOf T ≤ T ∧ T < hourBucketOf T + 3600000 ∧
    (86400000 ∣ dayBucketOf T) ∧
    dayBucketOf T ≤ T ∧ T < dayBucketOf T + 86400000 ∧
    monthBucketOf T = utcYear T * 100 + utcMonth T ∧
    1 ≤ utcMonth T ∧ utcMonth T ≤ 12 := by
  refine ⟨(hour_fdiv_bounds T).1, (hour_fdiv_bounds T).2,
    ⟨Int.fdiv T 86400000, by rw [mul_comm]; rfl⟩,
    (day_fdiv_bounds T).1, (day_fdiv_bounds T).2,
    rfl, utcMonth_range T⟩

-- ===========================================================================
-- Search & Grouping Engine (src/db/queries.ts)
-- ===========================================================================

/-- The query-string search parameters handed to `searchFiles` after upstream
validation; absent parameters are `none`. -/
structure SearchParams where
  bucket : Option String := none
  category : Option String := none
  entity : Option String := none
  extension : Option String := none
  media_type : Option String := none
  deprecated : Option String := none
  tags : Option String := none
  group_by : Option String := none
  limit : Option String := none
  offset : Option String := none

/-- One optional equality condition of `buildSearchConditions`: the condition
is added only when the parameter is truthy (present and nonempty). -/
def optFilterEq (p : Option String) (col : String) : Bool :=
  match p with
  | none => true
  | some s => if s = "" then true else col == s

/-- JavaScript `String.prototype.split(',')` on the underlying character
list: every comma separates two (possibly empty) fields. -/
def splitCommaChars : List Char → List (List Char)
  | [] => [[]]
  | c :: rest =>
    let r := splitCommaChars rest
    if c = ',' then [] :: r
    else
      match r with
      | [] => [[c]]
      | w :: ws => (c :: w) :: ws

/-- The whitespace characters stripped by JavaScript `String.prototype.trim`
(the ASCII subset, which covers the validated tag strings). -/
def isJsWhitespace (c : Char) : Bool :=
  c = ' ' || c = '\t' || c = '\n' || c = '\r' || c = '\x0B' || c = '\x0C'

/-- JavaScript `String.prototype.trim` on the underlying character list. -/
def trimChars (w : List Char) : List Char :=
  ((w.dropWhile isJsWhitespace).reverse.dropWhile isJsWhitespace).reverse

/-- `params.tags.split(',').map(t => t.trim())` in `buildSearchConditions`. -/
def tagListOf (tags : String) : List String :=
  (splitCommaChars tags.toList).map (fun w => String.mk (trimChars w))

/-- The tag subquery of `buildSearchConditions`: the record's id is selected
when, among the `file_tags` rows for this file whose tag is in the requested
list, the number of distinct tags equals the length of the requested list
(`HAVING COUNT(DISTINCT tag) = ?` bound to `tagList.length`). -/
def matchesTagCondition (db : DB) (tags : String) (fid : String) : Bool :=
  let tagList := tagListOf tags
  ((db.fileTags.filter (fun ft => ft.1 == fid && tagList.contains ft.2)).map
      (fun ft => ft.2)).dedup.length == tagList.length

/-- The full WHERE clause built by `buildSearchConditions`, as a predicate on
one `files` row.  `deprecated` compares against 1/0 depending on whether the
parameter string is "true"; the tag condition is added only when `params.tags`
is truthy. -/
def matchesSearch (db : DB) (params : SearchParams) (f : FileRecord) : Bool :=
  optFilterEq params.bucket f.bucket &&
  optFilterEq params.category f.category &&
  optFilterEq params.entity f.entity &&
  optFilterEq params.extension f.extension &&
  optFilterEq params.media_type f.media_type &&
  (match params.deprecated with
   | none => true
   | some s => f.deprecated == (s == "true")) &&
  (match params.tags with
   | none => true
   | some s => if s = "" then true else matchesTagCondition db s f.id)

/-- The set of `files` rows selected by the WHERE clause of
`buildSearchConditions`, in table order. -/
def searchMatches (db : DB) (params : SearchParams) : List FileRecord :=
  db.files.filter (matchesSearch db params)

/-- `parseInt(s, 10)` on an already-validated decimal digit string. -/
def parseNat (s : String) : Nat :=
  s.toList.foldl (fun n c => n * 10 + (c.toNat - 48)) 0

/-- Tags attached to one returned record (`fetchTagsForFiles` /
`getFileById`): the tag column of the `file_tags` rows for this file id. -/
def fileTagsOf (db : DB) (fid : String) : List String :=
  (db.fileTags.filter (fun ft => ft.1 == fid)).map (fun ft => ft.2)

/-- `ORDER BY f.created DESC` as a sorting relation. -/
def createdGE (a b : FileRecord) : Prop := b.created ≤ a.created

instance : DecidableRel createdGE := fun _ _ => Int.decLe _ _

/-- Result of the non-grouped search: a page of records with their attached
tags, plus the total matching count before truncation. -/
structure SearchResult where
  files : List (FileRecord × List String)
  total : Nat

/-- `searchFilesList`: counts all matching rows, then returns the page
`[offset, offset + limit)` of the matches ordered by creation time
descending, with tags batch-attached. -/
def searchFilesList (db : DB) (params : SearchParams) : SearchResult :=
  let ms := searchMatches db params
  let total := ms.length
  let lim := min (parseNat (params.limit.getD "100")) 1000
  let off := parseNat (params.offset.getD "0")
  let page := ((ms.insertionSort createdGE).drop off).take lim
  { files := page.map (fun f => (f, fileTagsOf db f.id)), total := total }

/-- The group-by allow-list `GROUPABLE_FIELDS` of src/db/queries.ts. -/
def GROUPABLE_FIELDS : List String :=
  ["bucket", "category", "entity", "extension", "media_type", "deprecated"]

/-- A raw SQL value as selected by `SELECT f.[groupBy] as value`: a string
column or the 0/1 integer of the deprecated column. -/
inductive SqlVal where
  | s : String → SqlVal
  | n : Int → SqlVal
deriving DecidableEq

/-- The raw grouped column value of one row for a given group-by field. -/
def rawGroupValue (g : String) (f : FileRecord) : SqlVal :=
  match g with
  | "bucket" => .s f.bucket
  | "category" => .s f.category
  | "entity" => .s f.entity
  | "extension" => .s f.extension
  | "media_type" => .s f.media_type
  | "deprecated" => .n (if f.deprecated then 1 else 0)
  | _ => .s ""

/-- The post-query value mapping of `searchFilesGrouped`: deprecated values
1/0 become the literal strings "true"/"false", other values are stringified
(identity for string columns). -/
def renderGroupValue (g : String) (v : SqlVal) : String :=
  if g = "deprecated" then (match v with | .n 1 => "true" | _ => "false")
  else (match v with | .s s => s | .n n => toString n)

/-- One per-value group of the grouped search. -/
structure GroupedResult where
  value : String
  count : Nat
deriving DecidableEq

/-- Result of the grouped search: groups ordered by count descending plus
their sum (`groups.reduce((sum, g) => sum + g.count, 0)`). -/
structure GroupedSearchResult where
  groups : List GroupedResult
  total : Nat
deriving DecidableEq

/-- `ORDER BY count DESC` as a sorting relation on (value, count) rows. -/
def countGE (a b : SqlVal × Nat) : Prop := b.2 ≤ a.2

instance : DecidableRel countGE := fun _ _ => Nat.decLe _ _

/-- `searchFilesGrouped`: rejects a group-by field outside the allow-list
before any store access, otherwise groups the matching rows by the raw column
value (`GROUP BY f.[groupBy]`), counts each group (`COUNT(*)`), orders by
count descending, renders the values and sums the counts. -/
def searchFilesGrouped (db : DB) (params : SearchParams) :
    Except String GroupedSearchResult :=
  match params.group_by with
  | none => .error "searchFilesGrouped requires group_by"
  | some g =>
    if GROUPABLE_FIELDS.contains g then
      let ms := searchMatches db params
      let keys := (ms.map (rawGroupValue g)).dedup
      let grouped := keys.map
        (fun v => (v, (ms.filter (fun f => rawGroupValue g f == v)).length))
      let sorted := grouped.insertionSort countGE
      let groups := sorted.map
        (fun r => { value := renderGroupValue g r.1, count := r.2 : GroupedResult })
      .ok { groups := groups, total := groups.foldl (fun sum gr => sum + gr.count) 0 }
    else .error ("Invalid group_by field: " ++ g)

-- ===========================================================================
-- Counting helper lemmas
-- ===========================================================================

theorem foldl_add_count (l : List GroupedResult) (init : Nat) :
    l.foldl (fun sum gr => sum + gr.count) init = init + (l.map (fun gr => gr.count)).sum := by
  induction l generalizing init with
  | nil => simp
  | cons hd tl ih => simp [List.foldl_cons, ih (init + hd.count), Nat.add_assoc]

theorem sum_filter_lengths {α κ : Type} [DecidableEq κ] (f : α → κ) :
    ∀ (ks : List κ) (l : List α), ks.Nodup → (∀ x ∈ l, f x ∈ ks) →
      ((ks.map (fun v => (l.filter (fun x => f x == v)).length)).sum = l.length) := by
  intro ks
  induction ks with
  | nil =>
    intro l _ hall
    have : l = [] := List.eq_nil_iff_forall_not_mem.mpr (fun x hx => by simpa using hall x hx)
    simp [this]
  | cons k rest ih =>
    intro l hnd hall
    have hsplit : l.length = (l.filter (fun x => f x == k)).length +
        (l.filter (fun x => !(f x == k))).length :=
      List.length_eq_length_filter_add (fun x => f x == k)
    have hrest : ∀ v ∈ rest,
        (l.filter (fun x => f x == v)) =
          ((l.filter (fun x => !(f x == k))).filter (fun x => f x == v)) := by
      intro v hv
      have hkv : v ≠ k := by
        rintro rfl
        exact (List.nodup_cons.mp hnd).1 hv
      rw [List.filter_comm]
      symm
      apply List.filter_eq_self.mpr
      intro a ha
      have hfa : f a = v := by simpa using List.of_mem_filter ha
      simp [hfa, hkv]
    have hallrest : ∀ x ∈ l.filter (fun x => !(f x == k)), f x ∈ rest := by
      intro x hx
      have hmem := List.mem_of_mem_filter hx
      have hne : f x ≠ k := by simpa using List.of_mem_filter hx
      have := hall x hmem
      simp only [List.mem_cons] at this
      exact this.resolve_left hne
    have ihr := ih (l.filter (fun x => !(f x == k))) (List.nodup_cons.mp hnd).2 hallrest
    calc ((k :: rest).map (fun v => (l.filter (fun x => f x == v)).length)).sum
        = (l.filter (fun x => f x == k)).length +
            (rest.map (fun v => (l.filter (fun x => f x == v)).length)).sum := by simp
      _ = (l.filter (fun x => f x == k)).length +
            (rest.map (fun v =>
              ((l.filter (fun x => !(f x == k))).filter (fun x => f x == v)).length)).sum := by
          congr 1
          apply congrArg
          exact List.map_congr_left (fun v hv => by rw [hrest v hv])
      _ = (l.filter (fun x => f x == k)).length +
            (l.filter (fun x => !(f x == k))).length := by rw [ihr]
      _ = l.length := hsplit.symm

-- ===========================================================================
-- C6: grouped total equals ungrouped total
-- ===========================================================================

/-- C6: for every filter set and valid group-by field, the total of the
grouped search (the sum of all per-value group counts) equals the total of
the non-grouped search for the same filter set. -/
theorem grouped_total_eq_ungrouped_total (db : DB) (params : SearchParams)
    (r : GroupedSearchResult) (hok : searchFilesGrouped db params = .ok r) :
    r.total = (searchFilesList db params).total := by
  unfold searchFilesGrouped at hok
  split at hok
  · exact Except.noConfusion hok
  next g heq =>
    split at hok
    case isFalse => exact Except.noConfusion hok
    case isTrue hin =>
    injection hok with hr
    subst hr
    simp only [searchFilesList]
    set ms := searchMatches db params with hms
    set keys := (ms.map (rawGroupValue g)).dedup with hkeys
    set grouped := keys.map
      (fun v => (v, (ms.filter (fun f => rawGroupValue g f == v)).length)) with hgrouped
    rw [foldl_add_count, Nat.zero_add]
    have hperm : (grouped.insertionSort countGE).Perm grouped :=
      List.perm_insertionSort countGE grouped
    have hmapperm :
        (((grouped.insertionSort countGE).map
            (fun r => { value := renderGroupValue g r.1, count := r.2 : GroupedResult })).map
          (fun gr => gr.count)).Perm
          ((grouped.map
            (fun r => { value := renderGroupValue g r.1, count := r.2 : GroupedResult })).map
          (fun gr => gr.count)) :=
      (hperm.map _).map _
    rw [hmapperm.sum_eq]
    have : ((grouped.map
        (fun r => { value := renderGroupValue g r.1, count := r.2 : GroupedResult })).map
          (fun gr => gr.count)) =
        keys.map (fun v => (ms.filter (fun f => rawGroupValue g f == v)).length) := by
      rw [hgrouped]
      simp [List.map_map, Function.comp]
    rw [this]
    exact sum_filter_lengths (rawGroupValue g) keys ms (List.nodup_dedup _)
      (fun x hx => List.mem_dedup.mpr (List.mem_map_of_mem _ hx))

/-- Witness for C6 at a concrete database and filter. -/
theorem grouped_total_eq_ungrouped_total_witness :
    ({ groups := [], total := 0 } : GroupedSearchResult).total =
      (searchFilesList { files := [], fileTags := [], downloads := [] }
        { group_by := some "entity" }).total :=
  grouped_total_eq_ungrouped_total { files := [], fileTags := [], downloads := [] }
    { group_by := some "entity" } { groups := [], total := 0 } rfl

-- ===========================================================================
-- C5: tag AND-filter semantics
-- ===========================================================================

theorem matchesTagCondition_iff (db : DB) (fid : String) (ts : String)
    (hnd : (tagListOf ts).Nodup) :
    (matchesTagCondition db ts fid = true ↔ ∀ t ∈ tagListOf ts, (fid, t) ∈ db.fileTags) := by
  unfold matchesTagCondition
  set tl := tagListOf ts with htl
  set matched := ((db.fileTags.filter (fun ft => ft.1 == fid && tl.contains ft.2)).map
    (fun ft => ft.2)) with hmatched
  have hsub : matched.dedup ⊆ tl := by
    intro x hx
    have hx2 : x ∈ matched := List.mem_dedup.mp hx
    rw [hmatched] at hx2
    obtain ⟨ft, hft, hfx⟩ := List.mem_map.mp hx2
    have hp := List.of_mem_filter hft
    simp only [Bool.and_eq_true, beq_iff_eq] at hp
    rw [← hfx]
    simpa using hp.2
  simp only [beq_iff_eq]
  constructor
  · intro hlen
    have hsp : matched.dedup.Subperm tl := (List.nodup_dedup matched).subperm hsub
    have hperm : matched.dedup.Perm tl := hsp.perm_of_length_le (le_of_eq hlen.symm)
    intro t ht
    have ht2 : t ∈ matched := List.mem_dedup.mp (hperm.mem_iff.mpr ht)
    rw [hmatched] at ht2
    obtain ⟨ft, hft, hfx⟩ := List.mem_map.mp ht2
    have hp := List.of_mem_filter hft
    simp only [Bool.and_eq_true, beq_iff_eq] at hp
    have hftv : ft = (fid, t) := Prod.ext hp.1 hfx
    exact hftv ▸ List.mem_of_mem_filter hft
  · intro hall
    have hsub2 : tl ⊆ matched.dedup := by
      intro t ht
      apply List.mem_dedup.mpr
      rw [hmatched]
      apply List.mem_map.mpr
      refine ⟨(fid, t), ?_, rfl⟩
      apply List.mem_filter.mpr
      refine ⟨hall t ht, ?_⟩
      simp [ht]
    have hsp1 : tl.Subperm matched.dedup := hnd.subperm hsub2
    have hsp2 : matched.dedup.Subperm tl := (List.nodup_dedup matched).subperm hsub
    exact Nat.le_antisymm hsp2.length_le hsp1.length_le

/-- C5 (amended): for a search whose only filter is a comma-separated tag
list whose trimmed entries are pairwise distinct, a stored record is selected
by the search WHERE clause if and only if it carries every listed tag.  (With
duplicate entries in the list the distinct-match count can never reach the
list length, so the filter matches nothing; see the counterexample.) -/
theorem tag_and_filter_iff (db : DB) (f : FileRecord) (ts : String)
    (hf : f ∈ db.files) (hne : ts ≠ "") (hnd : (tagListOf ts).Nodup) :
    (f ∈ searchMatches db { tags := some ts } ↔
      ∀ t ∈ tagListOf ts, (f.id, t) ∈ db.fileTags) := by
  unfold searchMatches
  rw [List.mem_filter]
  rw [← matchesTagCondition_iff db f.id ts hnd]
  constructor
  · rintro ⟨-, hcond⟩
    revert hcond
    dsimp only [matchesSearch, optFilterEq]
    simp only [Bool.true_and]
    rw [if_neg hne]
    exact id
  · intro hcond
    refine ⟨hf, ?_⟩
    dsimp only [matchesSearch, optFilterEq]
    simp only [Bool.true_and]
    rw [if_neg hne]
    exact hcond

/-- A file record with the given identity and location tuple and all other
columns at their creation defaults, used for concrete instances. -/
def sampleFile (id bucket path fname ver : String) : FileRecord :=
  { id := id, name := none, bucket := bucket, category := "c", entity := "e",
    extension := "x", media_type := "m", remote_path := path,
    remote_filename := fname, remote_version := ver, metadata_path := none,
    size := none, checksum_md5 := none, checksum_sha1 := none,
    checksum_sha256 := none, checksum_sha512 := none, extra := none,
    deprecated := false, deprecation_reason := "", created := 0, updated := 0 }

/-- Witness for C5 at a concrete database: a record tagged a and b matches
the filters "a" and "a,b" and does not match "a,b,c". -/
theorem tag_and_filter_iff_witness :
    (sampleFile "f1" "b" "p" "n" "v" ∈ searchMatches
        { files := [sampleFile "f1" "b" "p" "n" "v"],
          fileTags := [("f1", "a"), ("f1", "b")], downloads := [] }
        { tags := some "a,b" } ↔
      ∀ t ∈ tagListOf "a,b",
        ("f1", t) ∈ [(("f1" : String), ("a" : String)), ("f1", "b")]) :=
  tag_and_filter_iff
    { files := [sampleFile "f1" "b" "p" "n" "v"],
      fileTags := [("f1", "a"), ("f1", "b")], downloads := [] }
    (sampleFile "f1" "b" "p" "n" "v") "a,b"
    (by simp) (by decide) (by decide)

/-- C5 counterexample: with the duplicated tag list "a,a", a record that
carries every listed tag (it is tagged a) is not selected, refuting the
claimed equivalence for arbitrary comma-separated lists. -/
theorem tag_and_filter_duplicates_counterexample :
    (∀ t ∈ tagListOf "a,a",
        ((sampleFile "f1" "b" "p" "n" "v").id, t) ∈ [(("f1" : String), ("a" : String))]) ∧
      searchMatches
        { files := [sampleFile "f1" "b" "p" "n" "v"],
          fileTags := [("f1", "a")], downloads := [] }
        { tags := some "a,a" } = [] :=
  ⟨by decide, by rfl⟩

-- ===========================================================================
-- CRUD operations (src/db/queries.ts)
-- ===========================================================================

/-- `CreateFileInput` after upstream zod validation; optional fields absent
from the request body are `none`. -/
structure CreateFileInput where
  name : Option String := none
  bucket : String
  category : String
  entity : String
  extension : String
  media_type : String
  remote_path : String
  remote_filename : String
  remote_version : String
  metadata_path : Option String := none
  size : Option Int := none
  checksum_md5 : Option String := none
  checksum_sha1 : Option String := none
  checksum_sha256 : Option String := none
  checksum_sha512 : Option String := none
  extra : Option (List (String × JVal)) := none
  tags : Option (List String) := none

/-- `UpdateFileInput`: every field optional, `none` meaning the field was
absent (`undefined`) and must be left unchanged. -/
structure UpdateFileInput where
  name : Option String := none
  bucket : Option String := none
  category : Option String := none
  entity : Option String := none
  extension : Option String := none
  media_type : Option String := none
  remote_path : Option String := none
  remote_filename : Option String := none
  remote_version : Option String := none
  metadata_path : Option String := none
  size : Option Int := none
  checksum_md5 : Option String := none
  checksum_sha1 : Option String := none
  checksum_sha256 : Option String := none
  checksum_sha512 : Option String := none
  extra : Option (List (String × JVal)) := none
  deprecated : Option Bool := none
  deprecation_reason : Option String := none
  tags : Option (List String) := none

/-- `setFileTags`: does nothing when `tags` is undefined; otherwise deletes
the file's existing tag rows when `replace` is set and batch-inserts the new
ones (no insert statement is issued for an empty list). -/
def setFileTags (db : DB) (fileId : String) (tags : Option (List String))
    (replace : Bool) : DB :=
  match tags with
  | none => db
  | some ts =>
    let db1 := if replace then
      { db with fileTags := db.fileTags.filter (fun ft => !(ft.1 == fileId)) }
    else db
    if ts.length > 0 then
      { db1 with fileTags := db1.fileTags ++ ts.map (fun t => (fileId, t)) }
    else db1

/-- A file record together with its attached tag list, as returned by
`getFileById` and the write operations. -/
structure FileWithTags where
  file : FileRecord
  tags : List String

/-- `getFileById`: first `files` row with the given id, with its tags
attached. -/
def getFileById (db : DB) (id : String) : Option FileWithTags :=
  match db.files.find? (fun f => f.id == id) with
  | none => none
  | some f => some { file := f, tags := fileTagsOf db id }

/-- The 3-column equality checked by the unique index
`idx_files_remote_unique (remote_path, remote_filename, remote_version)`. -/
def sameRemote (f g : FileRecord) : Bool :=
  f.remote_path == g.remote_path && f.remote_filename == g.remote_filename &&
    f.remote_version == g.remote_version

/-- `INSERT INTO files`, subject to the id primary key and the unique remote
index of the schema: a violating insert fails with a constraint error. -/
def insertFileRecord (db : DB) (rec : FileRecord) : Except String DB :=
  if db.files.any (fun f => f.id == rec.id || sameRemote f rec) then
    .error "UNIQUE constraint failed"
  else
    .ok { db with files := db.files ++ [rec] }

/-- The `files` row built by `createFile` from its input: deprecated and
deprecation_reason take their schema defaults, created = updated = now. -/
def recordOfInput (input : CreateFileInput) (newId : String) (now : Int) :
    FileRecord :=
  { id := newId, name := input.name, bucket := input.bucket,
    category := input.category, entity := input.entity,
    extension := input.extension, media_type := input.media_type,
    remote_path := input.remote_path, remote_filename := input.remote_filename,
    remote_version := input.remote_version, metadata_path := input.metadata_path,
    size := input.size, checksum_md5 := input.checksum_md5,
    checksum_sha1 := input.checksum_sha1, checksum_sha256 := input.checksum_sha256,
    checksum_sha512 := input.checksum_sha512, extra := input.extra,
    deprecated := false, deprecation_reason := "", created := now, updated := now }

/-- `createFile`: inserts a fresh row built from the input, inserts its tags,
and reads the record back. -/
def createFile (db : DB) (input : CreateFileInput) (newId : String) (now : Int) :
    Except String (DB × FileWithTags) :=
  match insertFileRecord db (recordOfInput input newId now) with
  | .error e => .error e
  | .ok db1 =>
    let db2 := setFileTags db1 newId input.tags false
    match getFileById db2 newId with
    | some fwt => .ok (db2, fwt)
    | none => .error "record not found after insert"

/-- The field list applied by `updateFile`: a column is overwritten exactly
when the corresponding input field is defined, and `updated` is always set. -/
def applyUpdateInput (f : FileRecord) (input : UpdateFileInput) (now : Int) :
    FileRecord :=
  { f with
    name := if input.name.isSome then input.name else f.name,
    bucket := input.bucket.getD f.bucket,
    category := input.category.getD f.category,
    entity := input.entity.getD f.entity,
    extension := input.extension.getD f.extension,
    media_type := input.media_type.getD f.media_type,
    remote_path := input.remote_path.getD f.remote_path,
    remote_filename := input.remote_filename.getD f.remote_filename,
    remote_version := input.remote_version.getD f.remote_version,
    metadata_path := if input.metadata_path.isSome then input.metadata_path else f.metadata_path,
    size := if input.size.isSome then input.size else f.size,
    checksum_md5 := if input.checksum_md5.isSome then input.checksum_md5 else f.checksum_md5,
    checksum_sha1 := if input.checksum_sha1.isSome then input.checksum_sha1 else f.checksum_sha1,
    checksum_sha256 := if input.checksum_sha256.isSome then input.checksum_sha256 else f.checksum_sha256,
    checksum_sha512 := if input.checksum_sha512.isSome then input.checksum_sha512 else f.checksum_sha512,
    extra := if input.extra.isSome then input.extra else f.extra,
    deprecated := input.deprecated.getD f.deprecated,
    deprecation_reason := input.deprecation_reason.getD f.deprecation_reason,
    updated := now }

/-- `updateFile`: returns `none` when the id does not exist; otherwise runs
the dynamic UPDATE (which fails with a constraint error if the updated row's
remote triple would collide with a different row, per the unique index), then
replaces the tag set (`setFileTags` with replace, a no-op when `tags` is
undefined) and reads the record back. -/
def updateFile (db : DB) (id : String) (input : UpdateFileInput) (now : Int) :
    Except String (Option (DB × FileWithTags)) :=
  match getFileById db id with
  | none => .ok none
  | some existing =>
    let updatedRec := applyUpdateInput existing.file input now
    if db.files.any (fun g => !(g.id == id) && sameRemote g updatedRec) then
      .error "UNIQUE constraint failed"
    else
      let newFiles := db.files.map
        (fun f => if f.id == id then applyUpdateInput f input now else f)
      let db1 := { db with files := newFiles }
      let db2 := setFileTags db1 id input.tags true
      match getFileById db2 id with
      | some fwt => .ok (some (db2, fwt))
      | none => .ok none

/-- The WHERE clause of the upsert existence probe: equality on the full
location tuple (bucket, remote_path, remote_filename, remote_version). -/
def matchesTuple (input : CreateFileInput) (f : FileRecord) : Bool :=
  f.bucket == input.bucket && f.remote_path == input.remote_path &&
    f.remote_filename == input.remote_filename && f.remote_version == input.remote_version

/-- The SET list of the upsert UPDATE: name, category, entity, extension,
media_type, metadata_path, size, the four checksums, extra and updated (the
location tuple and the deprecation fields are not touched). -/
def applyUpsertUpdate (f : FileRecord) (input : CreateFileInput) (now : Int) :
    FileRecord :=
  { f with
    name := input.name, category := input.category, entity := input.entity,
    extension := input.extension, media_type := input.media_type,
    metadata_path := input.metadata_path, size := input.size,
    checksum_md5 := input.checksum_md5, checksum_sha1 := input.checksum_sha1,
    checksum_sha256 := input.checksum_sha256, checksum_sha512 := input.checksum_sha512,
    extra := input.extra, updated := now }

/-- The database state after the UPDATE + tag replacement of the upsert's
existing-record branch. -/
def upsertExistingDb (db : DB) (input : CreateFileInput) (exId : String)
    (now : Int) : DB :=
  let newFiles := db.files.map
    (fun f => if f.id == exId then applyUpsertUpdate f input now else f)
  setFileTags { db with files := newFiles } exId input.tags true

/-- `upsertFile`: probes for an existing row with the input's location tuple;
when found, updates that row in place and replaces its tags, returning
created = false; otherwise creates a fresh row (createFile), returning
created = true. -/
def upsertFile (db : DB) (input : CreateFileInput) (newId : String) (now : Int) :
    Except String (DB × FileWithTags × Bool) :=
  match db.files.find? (matchesTuple input) with
  | some existing =>
    let db2 := upsertExistingDb db input existing.id now
    match getFileById db2 existing.id with
    | some fwt => .ok (db2, fwt, false)
    | none => .error "record not found after upsert"
  | none =>
    match createFile db input newId now with
    | .ok (db1, fwt) => .ok (db1, fwt, true)
    | .error e => .error e

-- ===========================================================================
-- Helper lemmas about the CRUD operations
-- ===========================================================================

theorem setFileTags_files (db : DB) (fid : String) (tags : Option (List String))
    (rep : Bool) : (setFileTags db fid tags rep).files = db.files := by
  unfold setFileTags
  rcases tags with _ | ts
  · rfl
  · dsimp only
    split <;> split <;> rfl

theorem sameRemote_iff (f g : FileRecord) :
    sameRemote f g = true ↔ remoteTriple f = remoteTriple g := by
  simp [sameRemote, remoteTriple, Prod.ext_iff, and_assoc]

theorem tupleNe_of_tripleNe {f g : FileRecord}
    (h : remoteTriple f ≠ remoteTriple g) : locationTuple f ≠ locationTuple g :=
  fun hc => h (congrArg Prod.snd hc)

theorem tripleNe_symm : Symmetric (fun f g : FileRecord => remoteTriple f ≠ remoteTriple g) :=
  fun _ _ h hc => h hc.symm

-- ===========================================================================
-- C8: idempotent upsert on the location tuple
-- ===========================================================================

theorem upsertExistingDb_files (db : DB) (input : CreateFileInput)
    (exId : String) (now : Int) :
    (upsertExistingDb db input exId now).files =
      db.files.map (fun f => if f.id == exId then applyUpsertUpdate f input now else f) := by
  unfold upsertExistingDb
  dsimp only
  rw [setFileTags_files]

theorem insertFileRecord_ok {db : DB} {rec1 : FileRecord} {db1 : DB}
    (h : insertFileRecord db rec1 = .ok db1) :
    db1.files = db.files ++ [rec1] ∧
      ∀ f ∈ db.files, remoteTriple f ≠ remoteTriple rec1 := by
  unfold insertFileRecord at h
  split at h
  · exact Except.noConfusion h
  next hguard =>
    injection h with h1
    constructor
    · rw [← h1]
    · intro f hf hc
      have hfalse : (db.files.any fun f => f.id == rec1.id || sameRemote f rec1) = false := by
        simpa using hguard
      have hnot := List.any_eq_false.mp hfalse f hf
      have hsr : sameRemote f rec1 = true := (sameRemote_iff f rec1).mpr hc
      exact hnot (by simp [hsr])

theorem createFile_ok {db : DB} {input : CreateFileInput} {newId : String}
    {now : Int} {db1 : DB} {fwt : FileWithTags}
    (h : createFile db input newId now = .ok (db1, fwt)) :
    db1.files = db.files ++ [recordOfInput input newId now] ∧
      ∀ f ∈ db.files, remoteTriple f ≠ remoteTriple (recordOfInput input newId now) := by
  unfold createFile at h
  rcases hins : insertFileRecord db (recordOfInput input newId now) with e | dbI
  · rw [hins] at h; exact Except.noConfusion h
  · rw [hins] at h
    dsimp only at h
    obtain ⟨hfiles, hcross⟩ := insertFileRecord_ok hins
    rcases hgf : getFileById (setFileTags dbI newId input.tags false) newId with _ | fwt0
    · rw [hgf] at h; exact Except.noConfusion h
    · rw [hgf] at h
      injection h with h1
      have hdb : setFileTags dbI newId input.tags false = db1 := congrArg Prod.fst h1
      refine ⟨?_, hcross⟩
      rw [← hdb, setFileTags_files, hfiles]

/-- C8: under the store's unique-remote invariant, (a) when a record with the
input's location tuple already exists, the upsert returns created = false
with the existing record's id, leaves the list of stored location tuples
unchanged (so no second record with that tuple is stored), and overwrites the
updatable columns of that record from the input; and (b) whatever branch the
upsert takes, no two stored records ever share a location tuple afterwards. -/
theorem upsertFile_unique_tuple (db : DB) (input : CreateFileInput)
    (newId : String) (now : Int)
    (hinv : db.files.Pairwise (fun f g => remoteTriple f ≠ remoteTriple g)) :
    (∀ ex, db.files.find? (matchesTuple input) = some ex →
      ∃ db2 fwt, upsertFile db input newId now = .ok (db2, fwt, false) ∧
        fwt.file.id = ex.id ∧
        db2.files.map locationTuple = db.files.map locationTuple ∧
        (∀ g ∈ db2.files, g.id = ex.id →
          g.name = input.name ∧ g.category = input.category ∧
          g.entity = input.entity ∧ g.extension = input.extension ∧
          g.media_type = input.media_type ∧ g.metadata_path = input.metadata_path ∧
          g.size = input.size ∧ g.extra = input.extra ∧ g.updated = now)) ∧
    (∀ db2 fwt created, upsertFile db input newId now = .ok (db2, fwt, created) →
      db2.files.Pairwise (fun f g => locationTuple f ≠ locationTuple g)) := by
  constructor
  · intro ex hfind
    have hexmem : ex ∈ db.files := List.mem_of_find?_eq_some hfind
    have hdbfiles := upsertExistingDb_files db input ex.id now
    set mapped := db.files.map
      (fun f => if f.id == ex.id then applyUpsertUpdate f input now else f) with hmapped
    have hsome : (mapped.find? (fun f => f.id == ex.id)).isSome := by
      rw [List.find?_isSome]
      refine ⟨applyUpsertUpdate ex input now, ?_, by simp [applyUpsertUpdate]⟩
      rw [hmapped]
      have heq : (if ex.id == ex.id then applyUpsertUpdate ex input now else ex) =
          applyUpsertUpdate ex input now := by simp
      exact heq ▸ List.mem_map_of_mem _ hexmem
    obtain ⟨f1, hfd⟩ := Option.isSome_iff_exists.mp hsome
    have hf1id : f1.id = ex.id := by simpa using List.find?_some hfd
    refine ⟨upsertExistingDb db input ex.id now,
      { file := f1, tags := fileTagsOf (upsertExistingDb db input ex.id now) ex.id },
      ?_, hf1id, ?_, ?_⟩
    · unfold upsertFile
      rw [hfind]
      dsimp only
      unfold getFileById
      rw [hdbfiles, hfd]
    · rw [hdbfiles, hmapped, List.map_map]
      apply List.map_congr_left
      intro f _
      show locationTuple (if f.id == ex.id then applyUpsertUpdate f input now else f) = _
      split <;> rfl
    · intro g hg hgid
      rw [hdbfiles, hmapped] at hg
      obtain ⟨f0, -, hf0⟩ := List.mem_map.mp hg
      by_cases hc : (f0.id == ex.id) = true
      · rw [if_pos hc] at hf0
        rw [← hf0]
        exact ⟨rfl, rfl, rfl, rfl, rfl, rfl, rfl, rfl, rfl⟩
      · rw [if_neg hc] at hf0
        rw [← hf0] at hgid
        exact absurd (by simp [hgid]) hc
  · intro db2 fwt created hok
    unfold upsertFile at hok
    rcases hfind : db.files.find? (matchesTuple input) with _ | ex
    · rw [hfind] at hok
      dsimp only at hok
      rcases hcf : createFile db input newId now with e | p
      · rw [hcf] at hok; exact Except.noConfusion hok
      · rcases p with ⟨dbC, fwt0⟩
        rw [hcf] at hok
        dsimp only at hok
        injection hok with h1
        have hdb2 : dbC = db2 := congrArg Prod.fst h1
        obtain ⟨hfiles, hcross⟩ := createFile_ok hcf
        rw [← hdb2, hfiles]
        refine List.pairwise_append.mpr ⟨hinv.imp tupleNe_of_tripleNe, ?_, ?_⟩
        · simp
        · intro a ha b hb
          simp only [List.mem_singleton] at hb
          subst hb
          exact tupleNe_of_tripleNe (hcross a ha)
    · rw [hfind] at hok
      dsimp only at hok
      rcases hgf : getFileById (upsertExistingDb db input ex.id now) ex.id with _ | fwt0
      · rw [hgf] at hok
        exact Except.noConfusion hok
      · rw [hgf] at hok
        injection hok with h1
        have hdb2 : upsertExistingDb db input ex.id now = db2 := congrArg Prod.fst h1
        have hfiles : db2.files = db.files.map
            (fun f => if f.id == ex.id then applyUpsertUpdate f input now else f) := by
          rw [← hdb2, upsertExistingDb_files]
        rw [hfiles, List.pairwise_map]
        refine hinv.imp ?_
        intro a b hne
        apply tupleNe_of_tripleNe
        have ha2 : remoteTriple (if a.id == ex.id then applyUpsertUpdate a input now else a) =
            remoteTriple a := by split <;> rfl
        have hb2 : remoteTriple (if b.id == ex.id then applyUpsertUpdate b input now else b) =
            remoteTriple b := by split <;> rfl
        rw [ha2, hb2]
        exact hne

/-- A concrete store holding one record at tuple (b, p, n, v). -/
def upsertSampleDb : DB :=
  { files := [sampleFile "f1" "b" "p" "n" "v"], fileTags := [], downloads := [] }

/-- A create input with the same location tuple and fresh metadata. -/
def upsertSampleInput : CreateFileInput :=
  { bucket := "b", category := "c2", entity := "e2", extension := "x2",
    media_type := "m2", remote_path := "p", remote_filename := "n",
    remote_version := "v" }

/-- Witness for C8: upserting the same location tuple again at a concrete
store returns the stored record's id with created = false. -/
theorem upsertFile_unique_tuple_witness :
    ∃ db2 fwt, upsertFile upsertSampleDb upsertSampleInput "f2" 7 = .ok (db2, fwt, false) ∧
      fwt.file.id = (sampleFile "f1" "b" "p" "n" "v").id ∧
      db2.files.map locationTuple = upsertSampleDb.files.map locationTuple ∧
      (∀ g ∈ db2.files, g.id = (sampleFile "f1" "b" "p" "n" "v").id →
        g.name = upsertSampleInput.name ∧ g.category = upsertSampleInput.category ∧
        g.entity = upsertSampleInput.entity ∧ g.extension = upsertSampleInput.extension ∧
        g.media_type = upsertSampleInput.media_type ∧
        g.metadata_path = upsertSampleInput.metadata_path ∧
        g.size = upsertSampleInput.size ∧ g.extra = upsertSampleInput.extra ∧
        g.updated = 7) :=
  (upsertFile_unique_tuple upsertSampleDb upsertSampleInput "f2" 7
      (by simp [upsertSampleDb])).1
    (sampleFile "f1" "b" "p" "n" "v") rfl

-- ===========================================================================
-- C10: the empty partial update touches only the updated column
-- ===========================================================================

/-- C10: for an existing record id, updateFile with an input in which every
field (tags included) is undefined succeeds and leaves every stored column of
every record, the tag table and the download log unchanged, except that the
records with the target id get updated = now; the returned tag list is the
record's unchanged tag set. -/
theorem updateFile_empty_input (db : DB) (id : String) (now : Int)
    (hinv : db.files.Pairwise (fun f g => remoteTriple f ≠ remoteTriple g))
    (hex : ∃ f, f ∈ db.files ∧ f.id = id) :
    ∃ db2 fwt, updateFile db id {} now = .ok (some (db2, fwt)) ∧
      db2.files = db.files.map
        (fun f => if f.id == id then { f with updated := now } else f) ∧
      db2.fileTags = db.fileTags ∧
      db2.downloads = db.downloads ∧
      fwt.tags = fileTagsOf db id := by
  obtain ⟨f0, hf0mem, hf0id⟩ := hex
  have hsome0 : (db.files.find? (fun f => f.id == id)).isSome := by
    rw [List.find?_isSome]
    exact ⟨f0, hf0mem, by simp [hf0id]⟩
  obtain ⟨ex0, hfd0⟩ := Option.isSome_iff_exists.mp hsome0
  have hex0id : ex0.id = id := by simpa using List.find?_some hfd0
  have hex0mem : ex0 ∈ db.files := List.mem_of_find?_eq_some hfd0
  have hguard : (db.files.any
      (fun g => !(g.id == id) && sameRemote g (applyUpdateInput ex0 {} now))) = false := by
    rw [List.any_eq_false]
    intro g hg
    simp only [Bool.and_eq_true, Bool.not_eq_true', not_and]
    intro hgid hsr
    have hgne : g ≠ ex0 := by
      intro hcon
      rw [hcon, hex0id] at hgid
      simp at hgid
    have htrne : remoteTriple g ≠ remoteTriple ex0 :=
      List.Pairwise.forall tripleNe_symm hinv hg hex0mem hgne
    have htr : remoteTriple (applyUpdateInput ex0 {} now) = remoteTriple ex0 := rfl
    exact htrne (((sameRemote_iff _ _).mp hsr).trans htr)
  set mapped := db.files.map
    (fun f => if f.id == id then applyUpdateInput f {} now else f) with hmapped
  have hsome1 : (mapped.find? (fun f => f.id == id)).isSome := by
    rw [List.find?_isSome]
    refine ⟨if f0.id == id then applyUpdateInput f0 {} now else f0,
      List.mem_map_of_mem _ hf0mem, ?_⟩
    split <;> simp [applyUpdateInput, hf0id]
  obtain ⟨f1, hfd1⟩ := Option.isSome_iff_exists.mp hsome1
  have hrun : updateFile db id {} now =
      .ok (some ({ db with files := mapped },
        { file := f1, tags := fileTagsOf { db with files := mapped } id })) := by
    unfold updateFile
    unfold getFileById
    rw [hfd0]
    dsimp only
    rw [if_neg (by simp [hguard])]
    rw [setFileTags_files]
    rw [hfd1]
    rfl
  refine ⟨{ db with files := mapped },
    { file := f1, tags := fileTagsOf { db with files := mapped } id },
    hrun, rfl, rfl, rfl, rfl⟩

/-- A concrete one-record store with one tag row, for the C10 witness. -/
def updateSampleDb : DB :=
  { files := [sampleFile "f1" "b" "p" "n" "v"], fileTags := [("f1", "t")],
    downloads := [] }

/-- Witness for C10 at a concrete one-record store. -/
theorem updateFile_empty_input_witness :
    ∃ db2 fwt,
      updateFile updateSampleDb "f1" {} 9 = .ok (some (db2, fwt)) ∧
      db2.files = updateSampleDb.files.map
        (fun f => if f.id == "f1" then { f with updated := 9 } else f) ∧
      db2.fileTags = updateSampleDb.fileTags ∧
      db2.downloads = updateSampleDb.downloads ∧
      fwt.tags = fileTagsOf updateSampleDb "f1" :=
  updateFile_empty_input updateSampleDb "f1" 9 (by simp [updateSampleDb])
    ⟨sampleFile "f1" "b" "p" "n" "v", by simp [updateSampleDb], rfl⟩

-- ===========================================================================
-- Index Materializer (buildFileEntry / getNestedIndex)
-- ===========================================================================

/-- A value of one key of a nested-index entry: the synthetic checksums
sub-object, a synthetic string (file_size / last_updated / name), or an
arbitrary JSON value copied from the record's extra map. -/
inductive EntryVal where
  | checksums : Option String → Option String → Option String → Option String → EntryVal
  | strVal : String → EntryVal
  | jsonVal : JVal → EntryVal

/-- Insertion-ordered string-keyed map update, as JavaScript property
assignment behaves on plain objects: an existing key keeps its position and
gets the new value, a fresh key is appended. -/
def alistSet {α : Type} (o : List (String × α)) (k : String) (v : α) :
    List (String × α) :=
  if o.any (fun e => e.1 == k) then o.map (fun e => if e.1 == k then (k, v) else e)
  else o ++ [(k, v)]

/-- JavaScript property read on the insertion-ordered map. -/
def alistGet {α : Type} (o : List (String × α)) (k : String) : Option α :=
  (o.find? (fun e => e.1 == k)).map (fun e => e.2)

/-- `Object.assign(entry, file.extra)`: assign every source key in order. -/
def objAssign (o : List (String × EntryVal)) (src : List (String × JVal)) :
    List (String × EntryVal) :=
  src.foldl (fun acc kv => alistSet acc kv.1 (.jsonVal kv.2)) o

/-- JavaScript truthiness filter on an optional string: the empty string is
falsy, so `...(s && { key: s })` spreads nothing for `""` or null. -/
def optTruthy (o : Option String) : Option String :=
  match o with
  | some s => if s = "" then none else some s
  | none => none

/-- Zero-padded decimal rendering used by `Date.prototype.toISOString`. -/
def padNat (w : Nat) (n : Nat) : String :=
  let s := toString n
  String.mk (List.replicate (w - s.length) '0') ++ s

/-- `new Date(t).toISOString()`: the UTC civil date and time of the epoch
millisecond timestamp in ISO-8601 form, with the expanded ±YYYYYY year form
outside 0..9999. -/
def toISOString (t : Int) : String :=
  let days := Int.fdiv t 86400000
  let msod := (t - days * 86400000).toNat
  let c := civilFromDays days
  let datePart :=
    if 0 ≤ c.1 ∧ c.1 ≤ 9999 then padNat 4 c.1.toNat
    else if c.1 < 0 then "-" ++ padNat 6 (-c.1).toNat
    else "+" ++ padNat 6 c.1.toNat
  datePart ++ "-" ++ padNat 2 c.2.1.toNat ++ "-" ++ padNat 2 c.2.2.toNat ++ "T" ++
    padNat 2 (msod / 3600000) ++ ":" ++ padNat 2 (msod % 3600000 / 60000) ++ ":" ++
    padNat 2 (msod % 60000 / 1000) ++ "." ++ padNat 3 (msod % 1000) ++ "Z"

/-- `buildFileEntry`: the checksums sub-object (only truthy hash kinds), then
file_size as a string when size is non-null, last_updated as an ISO string
when updated is truthy, name when truthy, and finally every key of the extra
map assigned over the entry (overriding on collision). -/
def buildFileEntry (f : FileRecord) : List (String × EntryVal) :=
  let entry : List (String × EntryVal) :=
    [("checksums", .checksums (optTruthy f.checksum_md5) (optTruthy f.checksum_sha1)
      (optTruthy f.checksum_sha256) (optTruthy f.checksum_sha512))]
  let entry := match f.size with
    | some s => alistSet entry "file_size" (.strVal (toString s))
    | none => entry
  let entry := if f.updated ≠ 0 then
    alistSet entry "last_updated" (.strVal (toISOString f.updated)) else entry
  let entry := match f.name with
    | some n => if n ≠ "" then alistSet entry "name" (.strVal n) else entry
    | none => entry
  match f.extra with
  | some ex => objAssign entry ex
  | none => entry

/-- `ORDER BY f.entity, f.extension` as a sorting relation. -/
def entityExtLE (a b : FileRecord) : Prop :=
  a.entity < b.entity ∨ (a.entity = b.entity ∧ a.extension ≤ b.extension)

instance : DecidableRel entityExtLE := fun a b =>
  inferInstanceAs (Decidable (a.entity < b.entity ∨
    (a.entity = b.entity ∧ a.extension ≤ b.extension)))

/-- One fold step of `getNestedIndex`: ensure the entity bucket exists, then
write the entry at `[entity][extension]` (last write wins). -/
def nestedStep (idx : List (String × List (String × List (String × EntryVal))))
    (f : FileRecord) : List (String × List (String × List (String × EntryVal))) :=
  let inner := (alistGet idx f.entity).getD []
  alistSet idx f.entity (alistSet inner f.extension (buildFileEntry f))

/-- `getNestedIndex`: all matching records ordered by (entity, extension),
folded into the two-level entity → extension → entry map. -/
def getNestedIndex (db : DB) (params : SearchParams) :
    List (String × List (String × List (String × EntryVal))) :=
  ((searchMatches db params).insertionSort entityExtLE).foldl nestedStep []

-- ===========================================================================
-- C9: extra keys are spread into the entry and override synthetic keys
-- ===========================================================================

theorem find?_map_keyset_self {α : Type} (o : List (String × α)) (k : String)
    (v : α) (hany : (o.any (fun e => e.1 == k)) = true) :
    (o.map (fun e => if e.1 == k then (k, v) else e)).find? (fun e => e.1 == k) =
      some (k, v) := by
  induction o with
  | nil => simp at hany
  | cons hd tl ih =>
    by_cases hhd : (hd.1 == k) = true
    · rw [List.map_cons, if_pos hhd]
      rw [List.find?_cons_of_pos]
      simp
    · rw [List.map_cons, if_neg hhd]
      rw [List.find?_cons_of_neg]
      · exact ih (by simpa [List.any_cons, hhd] using hany)
      · exact hhd

theorem find?_map_keyset_ne {α : Type} (o : List (String × α)) (k j : String)
    (v : α) (hj : j ≠ k) :
    (o.map (fun e => if e.1 == k then (k, v) else e)).find? (fun e => e.1 == j) =
      o.find? (fun e => e.1 == j) := by
  induction o with
  | nil => rfl
  | cons hd tl ih =>
    by_cases hhd : (hd.1 == k) = true
    · have hdk : hd.1 = k := by simpa using hhd
      rw [List.map_cons, if_pos hhd]
      rw [List.find?_cons_of_neg]
      · rw [List.find?_cons_of_neg]
        · exact ih
        · simp [hdk, Ne.symm hj]
      · simp [Ne.symm hj]
    · rw [List.map_cons, if_neg hhd]
      by_cases hpj : (hd.1 == j) = true
      · rw [List.find?_cons_of_pos]
        · rw [List.find?_cons_of_pos]
          exact hpj
        · exact hpj
      · rw [List.find?_cons_of_neg]
        · rw [List.find?_cons_of_neg]
          · exact ih
          · exact hpj
        · exact hpj

theorem alistSet_get {α : Type} (o : List (String × α)) (k : String) (v : α)
    (j : String) :
    alistGet (alistSet o k v) j = if j = k then some v else alistGet o j := by
  unfold alistSet alistGet
  by_cases hany : (o.any (fun e => e.1 == k)) = true
  · rw [if_pos hany]
    by_cases hj : j = k
    · subst hj
      rw [if_pos rfl, find?_map_keyset_self o j v hany]
      rfl
    · rw [if_neg hj, find?_map_keyset_ne o k j v hj]
  · rw [if_neg hany, List.find?_append]
    by_cases hj : j = k
    · subst hj
      have hfalse : (o.any (fun e => e.1 == j)) = false := Bool.eq_false_iff.mpr hany
      have hnone : o.find? (fun e => e.1 == j) = none := by
        rw [List.find?_eq_none]
        intro e he
        exact List.any_eq_false.mp hfalse e he
      rw [if_pos rfl, hnone]
      simp
    · rw [if_neg hj]
      have hlast : ([(k, v)].find? (fun e => e.1 == j)) = none := by
        simp [Ne.symm hj]
      rw [hlast]
      simp

theorem objAssign_get_not_mem (src : List (String × JVal)) :
    ∀ (o : List (String × EntryVal)) (k : String), k ∉ src.map Prod.fst →
      alistGet (objAssign o src) k = alistGet o k := by
  induction src with
  | nil => intro o k _; rfl
  | cons hd tl ih =>
    intro o k hk
    simp only [List.map_cons, List.mem_cons, not_or] at hk
    show alistGet (objAssign (alistSet o hd.1 (.jsonVal hd.2)) tl) k = _
    rw [ih _ k hk.2, alistSet_get, if_neg hk.1]

theorem objAssign_get_mem (src : List (String × JVal)) :
    ∀ (o : List (String × EntryVal)) (k : String) (v : JVal),
      (src.map Prod.fst).Nodup → (k, v) ∈ src →
      alistGet (objAssign o src) k = some (.jsonVal v) := by
  induction src with
  | nil => intro o k v _ hm; cases hm
  | cons hd tl ih =>
    intro o k v hnd hm
    rw [List.map_cons, List.nodup_cons] at hnd
    rcases List.mem_cons.mp hm with rfl | htl
    · show alistGet (objAssign (alistSet o k (.jsonVal v)) tl) k = some (.jsonVal v)
      rw [objAssign_get_not_mem tl _ k hnd.1, alistSet_get, if_pos rfl]
    · show alistGet (objAssign (alistSet o hd.1 (.jsonVal hd.2)) tl) k = some (.jsonVal v)
      exact ih _ k v hnd.2 htl

/-- The leaf-provenance invariant of the nested index: every entry reachable
at (entity, extension) is `buildFileEntry` of some record of the allowed set
with that entity and extension. -/
def NestedInv (S : List FileRecord)
    (idx : List (String × List (String × List (String × EntryVal)))) : Prop :=
  ∀ e inner, alistGet idx e = some inner →
    ∀ x entry, alistGet inner x = some entry →
      ∃ f, f ∈ S ∧ f.entity = e ∧ f.extension = x ∧ entry = buildFileEntry f

theorem nestedStep_inv {S : List FileRecord}
    {idx : List (String × List (String × List (String × EntryVal)))}
    (hS : NestedInv S idx) {f : FileRecord} (hf : f ∈ S) :
    NestedInv S (nestedStep idx f) := by
  intro e inner hinner x entry hentry
  unfold nestedStep at hinner
  rw [alistSet_get] at hinner
  by_cases he : e = f.entity
  · subst he
    rw [if_pos rfl] at hinner
    injection hinner with hin
    rw [← hin] at hentry
    rw [alistSet_get] at hentry
    by_cases hx : x = f.extension
    · rw [if_pos hx] at hentry
      injection hentry with hent
      exact ⟨f, hf, rfl, hx.symm, hent.symm⟩
    · rw [if_neg hx] at hentry
      rcases hidx : alistGet idx f.entity with _ | inner1
      · rw [hidx] at hentry
        simp [alistGet] at hentry
      · rw [hidx] at hentry
        exact hS f.entity inner1 hidx x entry (by simpa using hentry)
  · rw [if_neg he] at hinner
    exact hS e inner hinner x entry hentry

theorem foldl_nestedStep_inv (S : List FileRecord) :
    ∀ (l : List FileRecord)
      (idx : List (String × List (String × List (String × EntryVal)))),
      (∀ f ∈ l, f ∈ S) → NestedInv S idx →
      NestedInv S (l.foldl nestedStep idx) := by
  intro l
  induction l with
  | nil => intro idx _ h; exact h
  | cons hd tl ih =>
    intro idx hl h
    exact ih _ (fun f hf => hl f (List.mem_cons_of_mem _ hf))
      (nestedStep_inv h (hl hd (List.mem_cons_self _ _)))

/-- C9: every leaf entry of the nested index is `buildFileEntry` of a
matching record with that entity and extension, and in `buildFileEntry` every
key of the record's free-form extra map is readable from the entry with the
extra map's value — including when that key collides with one of the
synthetic keys (checksums, file_size, last_updated, name), whose synthetic
value is thereby overridden. -/
theorem nested_index_extra_override (db : DB) (params : SearchParams) :
    NestedInv (searchMatches db params) (getNestedIndex db params) ∧
    (∀ f : FileRecord, ∀ ex, f.extra = some ex → (ex.map Prod.fst).Nodup →
      ∀ k v, (k, v) ∈ ex → alistGet (buildFileEntry f) k = some (.jsonVal v)) := by
  constructor
  · unfold getNestedIndex
    apply foldl_nestedStep_inv
    · intro f hf
      simpa using hf
    · intro e inner h
      simp [alistGet] at h
  · intro f ex hex hnd k v hkv
    unfold buildFileEntry
    rw [hex]
    exact objAssign_get_mem ex _ k v hnd hkv

/-- A record carrying an extra map that collides with the synthetic
checksums key. -/
def extraSampleFile : FileRecord :=
  { sampleFile "f9" "b" "p9" "n9" "v9" with
    extra := some [("checksums", .jstr "override"), ("k2", .jnum 5)] }

/-- Witness for C9: the colliding extra key wins over the synthetic
checksums value at a concrete record. -/
theorem nested_index_extra_override_witness :
    alistGet (buildFileEntry extraSampleFile) "checksums" =
      some (.jsonVal (.jstr "override")) :=
  (nested_index_extra_override
      { files := [extraSampleFile], fileTags := [], downloads := [] } {}).2
    extraSampleFile [("checksums", .jstr "override"), ("k2", .jnum 5)] rfl
    (by decide) "checksums" (.jstr "override") (List.mem_cons_self _ _)

-- ===========================================================================
-- Download analytics (src/db/downloads.ts)
-- ===========================================================================

/-- The analytics scale. -/
inductive AnalyticsScale where
  | hour : AnalyticsScale
  | day : AnalyticsScale
  | month : AnalyticsScale
deriving DecidableEq

/-- `getBucketColumn`: the precomputed bucket column read for a scale. -/
def bucketCol (scale : AnalyticsScale) (d : DownloadEvent) : Int :=
  match scale with
  | .hour => d.hour_bucket
  | .day => d.day_bucket
  | .month => d.month_bucket

/-- The optional file-tuple filter of the analytics endpoints. -/
structure FileFilter where
  bucket : Option String := none
  remote_path : Option String := none
  remote_filename : Option String := none
  remote_version : Option String := none

/-- `buildFileConditions`: one equality condition per truthy filter field. -/
def matchesFileFilter (fl : FileFilter) (d : DownloadEvent) : Bool :=
  optFilterEq fl.bucket d.bucket && optFilterEq fl.remote_path d.remote_path &&
  optFilterEq fl.remote_filename d.remote_filename &&
  optFilterEq fl.remote_version d.remote_version

/-- The startBucket/endBucket conversion of `getTimeSeries`: an epoch-ms
boundary becomes a YYYYMM integer for month scale and is floored to the
bucket width for hour/day scale. -/
def toBucket (scale : AnalyticsScale) (t : Int) : Int :=
  match scale with
  | .month => utcYear t * 100 + utcMonth t
  | .hour => Int.fdiv t 3600000 * 3600000
  | .day => Int.fdiv t 86400000 * 86400000

/-- The download events admitted by the WHERE clause shared by both
time-series queries: the file filter plus the inclusive bucket range on the
scale's bucket column. -/
def eventsInRange (db : DB) (scale : AnalyticsScale) (fl : FileFilter)
    (startB endB : Int) : List DownloadEvent :=
  db.downloads.filter (fun d => matchesFileFilter fl d &&
    decide (startB ≤ bucketCol scale d) && decide (bucketCol scale d ≤ endB))

/-- One row of the grouped per-file time-series query. -/
structure TSRow where
  time_bucket : Int
  file_id : Option String
  bucket : String
  remote_path : String
  remote_filename : String
  remote_version : String
  downloads : Nat
  unique_downloads : Nat
deriving DecidableEq

/-- One per-file detail row of an emitted time-series bucket. -/
structure FileDownloadStats where
  id : Option String
  bucket : String
  remote_path : String
  remote_filename : String
  remote_version : String
  downloads : Nat
  unique_downloads : Nat
deriving DecidableEq

/-- One emitted time-series bucket. -/
structure TimeSeriesBucket where
  timestamp : Int
  files : List FileDownloadStats
  total_downloads : Nat
  total_unique_downloads : Nat
deriving DecidableEq

/-- The row set of the first `getTimeSeries` query: `GROUP BY` the bucket
column and the event location tuple over the admitted events, `COUNT(*)` and
`COUNT(DISTINCT ip_address)` per group, with the file id attached by the
LEFT JOIN on the location tuple.  The join multiplies the per-group row count
by the number of matching file records (at most one under the unique remote
index, and 1 when none matches, as LEFT JOIN keeps unmatched rows); SQLite's
bare `f.id` column picks a representative of the group, modelled as the first
matching file. -/
def groupRows (db : DB) (scale : AnalyticsScale) (evs : List DownloadEvent) :
    List TSRow :=
  ((evs.map (fun d => (bucketCol scale d, eventTuple d))).dedup).map (fun key =>
    let grp := evs.filter (fun d =>
      decide (bucketCol scale d = key.1) && decide (eventTuple d = key.2))
    let joined := db.files.filter (fun f => decide (locationTuple f = key.2))
    { time_bucket := key.1,
      file_id := (joined.head?).map (fun f => f.id),
      bucket := key.2.1, remote_path := key.2.2.1,
      remote_filename := key.2.2.2.1, remote_version := key.2.2.2.2,
      downloads := grp.length * max joined.length 1,
      unique_downloads := ((grp.map (fun d => d.ip_address)).dedup).length })

/-- `ORDER BY d.[bucketCol], downloads DESC` as a sorting relation. -/
def rowLE (a b : TSRow) : Prop :=
  a.time_bucket < b.time_bucket ∨
    (a.time_bucket = b.time_bucket ∧ b.downloads ≤ a.downloads)

instance : DecidableRel rowLE := fun a b =>
  inferInstanceAs (Decidable (a.time_bucket < b.time_bucket ∨
    (a.time_bucket = b.time_bucket ∧ b.downloads ≤ a.downloads)))

instance : IsTotal TSRow rowLE :=
  ⟨fun a b => by
    unfold rowLE
    rcases lt_trichotomy a.time_bucket b.time_bucket with h | h | h
    · exact Or.inl (Or.inl h)
    · rcases Nat.le_total b.downloads a.downloads with hd | hd
      · exact Or.inl (Or.inr ⟨h, hd⟩)
      · exact Or.inr (Or.inr ⟨h.symm, hd⟩)
    · exact Or.inr (Or.inl h)⟩

instance : IsTrans TSRow rowLE :=
  ⟨fun a b c hab hbc => by
    unfold rowLE at hab hbc ⊢
    rcases hab with h1 | ⟨h1, hd1⟩
    · rcases hbc with h2 | ⟨h2, -⟩
      · exact Or.inl (h1.trans h2)
      · exact Or.inl (h2 ▸ h1)
    · rcases hbc with h2 | ⟨h2, hd2⟩
      · exact Or.inl (h1 ▸ h2)
      · exact Or.inr ⟨h1.trans h2, hd2.trans hd1⟩⟩

/-- The ordered row stream consumed by the bucket-building loop. -/
def sortedRows (db : DB) (scale : AnalyticsScale) (evs : List DownloadEvent) :
    List TSRow :=
  (groupRows db scale evs).insertionSort rowLE

/-- The per-bucket accumulator of the row loop (files, total, unique). -/
structure BucketAcc where
  files : List FileDownloadStats
  total : Nat
  unique : Nat
deriving DecidableEq

/-- The detail row pushed for one grouped row. -/
def statOf (r : TSRow) : FileDownloadStats :=
  { id := r.file_id, bucket := r.bucket, remote_path := r.remote_path,
    remote_filename := r.remote_filename, remote_version := r.remote_version,
    downloads := r.downloads, unique_downloads := r.unique_downloads }

/-- One row folded into its bucket accumulator: the total always grows by the
row's downloads, the detail list grows only while shorter than the cap. -/
def updAcc (cap : Nat) (acc : BucketAcc) (r : TSRow) : BucketAcc :=
  { files := if acc.files.length < cap then acc.files ++ [statOf r] else acc.files,
    total := acc.total + r.downloads, unique := acc.unique }

/-- One step of the row loop over the insertion-ordered bucket map (a
JavaScript `Map` keyed by the time bucket, modelled as an association list
that preserves first-insertion order). -/
def stepRow (cap : Nat) : List (Int × BucketAcc) → TSRow → List (Int × BucketAcc)
  | [], r => [(r.time_bucket, updAcc cap { files := [], total := 0, unique := 0 } r)]
  | (k, acc) :: rest, r =>
    if k = r.time_bucket then (k, updAcc cap acc r) :: rest
    else (k, acc) :: stepRow cap rest r

/-- The bucket map after the whole row loop. -/
def buildMap (cap : Nat) (rows : List TSRow) : List (Int × BucketAcc) :=
  rows.foldl (stepRow cap) []

/-- The rows of the second time-series query: per distinct bucket value of
the admitted events, the count of distinct IP addresses across all tuples,
ordered by bucket. -/
def bucketKeyLE (a b : Int × Nat) : Prop := a.1 ≤ b.1

instance : DecidableRel bucketKeyLE := fun a b => Int.decLe a.1 b.1

def uniqueRows (scale : AnalyticsScale) (evs : List DownloadEvent) :
    List (Int × Nat) :=
  (((evs.map (bucketCol scale)).dedup).map (fun b =>
    (b, ((evs.filter (fun d => decide (bucketCol scale d = b))).map
      (fun d => d.ip_address)).dedup.length))).insertionSort bucketKeyLE

/-- The merge loop writing each unique count into its bucket accumulator
(`if (timeBucketMap.has(row.bucket)) ... .unique = row.unique_downloads`);
mapping over the association list is the same operation, as a missing key
changes nothing. -/
def setUnique (m : List (Int × BucketAcc)) (k : Int) (u : Nat) :
    List (Int × BucketAcc) :=
  m.map (fun e => if e.1 = k then (e.1, { e.2 with unique := u }) else e)

/-- The whole unique-count merge loop over the second query's rows. -/
def mergeUnique (m : List (Int × BucketAcc)) (urs : List (Int × Nat)) :
    List (Int × BucketAcc) :=
  urs.foldl (fun acc r => setUnique acc r.1 r.2) m

/-- The final ascending sort of the map entries. -/
def entryLE (a b : Int × BucketAcc) : Prop := a.1 ≤ b.1

instance : DecidableRel entryLE := fun a b => Int.decLe a.1 b.1

/-- `getTimeSeries`: convert the range to bucket space, run the grouped
per-file query, fold its rows into the bucket map (exact totals, capped
detail lists), merge the per-bucket distinct-IP counts of the second query,
and emit the buckets ordered by bucket key ascending. -/
def getTimeSeries (db : DB) (startT endT : Int) (scale : AnalyticsScale)
    (fl : FileFilter) (filesLimit : Nat) : List TimeSeriesBucket :=
  let startBucket := toBucket scale startT
  let endBucket := toBucket scale endT
  let evs := eventsInRange db scale fl startBucket endBucket
  let m := buildMap filesLimit (sortedRows db scale evs)
  let m2 := mergeUnique m (uniqueRows scale evs)
  (m2.insertionSort entryLE).map (fun e =>
    { timestamp := e.1, files := e.2.files, total_downloads := e.2.total,
      total_unique_downloads := e.2.unique })

-- ===========================================================================
-- Summary aggregator (getSummary)
-- ===========================================================================

/-- One returned user-agent ranking row of the summary. -/
structure UserAgentCount where
  user_agent : String
  downloads : Nat
deriving DecidableEq

/-- The summary payload. -/
structure AnalyticsSummary where
  total_downloads : Nat
  unique_downloads : Nat
  top_user_agents : List UserAgentCount
  period : Int × Int
deriving DecidableEq

/-- The events admitted by getSummary's WHERE clause: the file filter plus
the inclusive downloaded_at range. -/
def summaryEvents (db : DB) (startT endT : Int) (fl : FileFilter) :
    List DownloadEvent :=
  db.downloads.filter (fun d => matchesFileFilter fl d &&
    decide (startT ≤ d.downloaded_at) && decide (d.downloaded_at ≤ endT))

/-- `GROUP BY user_agent` over the admitted events (the null user agent forms
a group of its own), with `COUNT(*)` per group. -/
def uaGroups (evs : List DownloadEvent) : List (Option String × Nat) :=
  ((evs.map (fun d => d.user_agent)).dedup).map (fun ua =>
    (ua, (evs.filter (fun d => d.user_agent == ua)).length))

/-- `ORDER BY downloads DESC` on user-agent groups. -/
def uaCountGE (a b : Option String × Nat) : Prop := b.2 ≤ a.2

instance : DecidableRel uaCountGE := fun a b => Nat.decLe b.2 a.2

/-- The truthiness filter + rename applied to the LIMIT-10 user-agent rows:
rows whose user agent is null (or empty, which is falsy) are dropped AFTER
the limit. -/
def presentUa (g : Option String × Nat) : Option UserAgentCount :=
  match g.1 with
  | some ua => if ua = "" then none else some { user_agent := ua, downloads := g.2 }
  | none => none

/-- `getSummary`: exact total and distinct-IP counts over the admitted
events, plus the user-agent ranking: groups ordered by count descending,
truncated to 10 by the SQL LIMIT, and only then filtered for truthy user
agents. -/
def getSummary (db : DB) (startT endT : Int) (fl : FileFilter) :
    AnalyticsSummary :=
  let evs := summaryEvents db startT endT fl
  let sorted := (uaGroups evs).insertionSort uaCountGE
  { total_downloads := evs.length,
    unique_downloads := ((evs.map (fun d => d.ip_address)).dedup).length,
    top_user_agents := (sorted.take 10).filterMap presentUa,
    period := (startT, endT) }

-- ===========================================================================
-- The /timeseries route (src/routes/analytics.ts + src/validation.ts)
-- ===========================================================================

/-- The raw query parameters of the analytics routes; the `end` query
parameter is the `endp` field. -/
structure AnalyticsParams where
  start : Option String := none
  endp : Option String := none
  scale : Option String := none
  bucket : Option String := none
  remote_path : Option String := none
  remote_filename : Option String := none
  remote_version : Option String := none
  ip : Option String := none
  limit : Option String := none
  offset : Option String := none

/-- The `/^\d+$/` regex of the zod schema. -/
def isDigits (s : String) : Bool :=
  decide (s ≠ "") && s.toList.all (fun c => c.isDigit)

/-- `analyticsParamsSchema`: start and end must be digit strings, scale must
be hour/day/month when present, the remaining fields have only length
bounds.  The schema performs no comparison between start and end. -/
def analyticsParamsValid (p : AnalyticsParams) : Bool :=
  (match p.start with | some s => isDigits s | none => false) &&
  (match p.endp with | some s => isDigits s | none => false) &&
  (match p.scale with
   | some s => decide (s = "hour") || decide (s = "day") || decide (s = "month")
   | none => true) &&
  (match p.remote_path with | some s => decide (s.length ≤ 500) | none => true) &&
  (match p.remote_filename with | some s => decide (s.length ≤ 255) | none => true) &&
  (match p.remote_version with | some s => decide (s.length ≤ 100) | none => true) &&
  (match p.ip with | some s => decide (s.length ≤ 45) | none => true) &&
  (match p.limit with | some s => isDigits s | none => true) &&
  (match p.offset with | some s => isDigits s | none => true)

/-- `(scale || 'day') as AnalyticsScale` on a validated scale string. -/
def parseScale (s : Option String) : AnalyticsScale :=
  match s with
  | some "hour" => .hour
  | some "month" => .month
  | _ => .day

/-- The GET /analytics/timeseries handler: zod validation of the raw
parameters (surfacing a 400 validation error on failure), then the
aggregation.  The schema strips the unknown `bucket` query parameter, so the
file filter's bucket is always absent. -/
def timeseriesHandler (db : DB) (p : AnalyticsParams) :
    Except String (List TimeSeriesBucket) :=
  if analyticsParamsValid p then
    .ok (getTimeSeries db (Int.ofNat (parseNat (p.start.getD "")))
      (Int.ofNat (parseNat (p.endp.getD ""))) (parseScale p.scale)
      { bucket := none, remote_path := p.remote_path,
        remote_filename := p.remote_filename, remote_version := p.remote_version }
      (min (parseNat (p.limit.getD "100")) 1000))
  else .error "validation failed"

-- ===========================================================================
-- C3: start > end is not rejected before aggregation
-- ===========================================================================

/-- A download event recorded at epoch instant 0, with the bucket columns
`createDownload` would precompute for it. -/
def c3Event : DownloadEvent :=
  { id := "d1", bucket := "b", remote_path := "p", remote_filename := "n",
    remote_version := "v", ip_address := "1.1.1.1", user_agent := none,
    downloaded_at := 0, hour_bucket := (computeBuckets 0).1,
    day_bucket := (computeBuckets 0).2.1, month_bucket := (computeBuckets 0).2.2 }

/-- A store holding only that download event. -/
def c3Db : DB := { files := [], fileTags := [], downloads := [c3Event] }

/-- A /timeseries request with start = 100 > end = 50, scale = month. -/
def c3Params : AnalyticsParams :=
  { start := some "100", endp := some "50", scale := some "month" }

/-- C3 evidence: the request has start > end, yet the parameter validation
accepts it and the handler runs the aggregation and returns a non-empty
bucket list instead of failing with a validation error (both boundaries fall
in calendar month 197001, so the stored event matches the range).  The
repository's own test suite expects a 400 response with the message
"start must be less than or equal to end" here. -/
theorem timeseries_start_gt_end_not_rejected :
    parseNat "50" < parseNat "100" ∧
    analyticsParamsValid c3Params = true ∧
    timeseriesHandler c3Db c3Params =
      .ok [{ timestamp := 197001,
             files := [{ id := none, bucket := "b", remote_path := "p",
                         remote_filename := "n", remote_version := "v",
                         downloads := 1, unique_downloads := 1 }],
             total_downloads := 1, total_unique_downloads := 1 }] :=
  ⟨by decide, by decide, by rfl⟩

-- ===========================================================================
-- C4: summary totals and the user-agent top-10
-- ===========================================================================

instance : IsTotal (Option String × Nat) uaCountGE := ⟨fun a b => Nat.le_total b.2 a.2⟩

instance : IsTrans (Option String × Nat) uaCountGE := ⟨fun _ _ _ h1 h2 => h2.trans h1⟩

theorem presentUa_downloads {g : Option String × Nat} {u : UserAgentCount}
    (h : presentUa g = some u) : u.downloads = g.2 := by
  unfold presentUa at h
  rcases hg1 : g.1 with _ | ua
  · rw [hg1] at h; exact Option.noConfusion h
  · rw [hg1] at h
    have h2 : (if ua = "" then none
        else some { user_agent := ua, downloads := g.2 } : Option UserAgentCount) = some u := h
    by_cases he : ua = ""
    · rw [if_pos he] at h2; exact Option.noConfusion h2
    · rw [if_neg he] at h2
      injection h2 with h1
      rw [← h1]

/-- C4 (amended): getSummary returns the exact total download count and the
exact distinct-IP count over the admitted events, and its user-agent ranking
consists of exact per-agent download counts ordered descending — but the
10-row limit is applied to the user-agent groups with the null group still
present, and null/empty user agents are removed only afterwards, so a null
group can occupy one of the 10 slots. -/
theorem getSummary_spec (db : DB) (startT endT : Int) (fl : FileFilter) :
    (getSummary db startT endT fl).total_downloads =
      (summaryEvents db startT endT fl).length ∧
    (getSummary db startT endT fl).unique_downloads =
      (((summaryEvents db startT endT fl).map (fun d => d.ip_address)).dedup).length ∧
    (getSummary db startT endT fl).top_user_agents =
      ((((uaGroups (summaryEvents db startT endT fl)).insertionSort
        uaCountGE).take 10).filterMap presentUa) ∧
    (getSummary db startT endT fl).top_user_agents.length ≤ 10 ∧
    (∀ g ∈ (getSummary db startT endT fl).top_user_agents,
      g.user_agent ≠ "" ∧
      g.downloads = ((summaryEvents db startT endT fl).filter
        (fun d => d.user_agent == some g.user_agent)).length) ∧
    (getSummary db startT endT fl).top_user_agents.Pairwise
      (fun a b => b.downloads ≤ a.downloads) := by
  refine ⟨rfl, rfl, rfl, ?_, ?_, ?_⟩
  · calc (getSummary db startT endT fl).top_user_agents.length
        ≤ (((uaGroups (summaryEvents db startT endT fl)).insertionSort
            uaCountGE).take 10).length := List.length_filterMap_le _ _
      _ ≤ 10 := List.length_take_le _ _
  · intro g hg
    obtain ⟨p, hp, hpg⟩ := List.mem_filterMap.mp hg
    have hpmem : p ∈ (uaGroups (summaryEvents db startT endT fl)).insertionSort uaCountGE :=
      List.mem_of_mem_take hp
    have hpmem2 : p ∈ uaGroups (summaryEvents db startT endT fl) := by
      simpa using hpmem
    obtain ⟨ua0, hua0, hua0p⟩ := List.mem_map.mp hpmem2
    unfold presentUa at hpg
    rcases hp1 : p.1 with _ | ua
    · rw [hp1] at hpg; exact Option.noConfusion hpg
    · rw [hp1] at hpg
      have hpg2 : (if ua = "" then none
          else some { user_agent := ua, downloads := p.2 } : Option UserAgentCount) =
          some g := hpg
      by_cases hempty : ua = ""
      · rw [if_pos hempty] at hpg2; exact Option.noConfusion hpg2
      · rw [if_neg hempty] at hpg2
        injection hpg2 with hpg1
        constructor
        · rw [← hpg1]; exact hempty
        · rw [← hpg1]
          show p.2 = _
          rw [← hua0p] at hp1 ⊢
          dsimp only at hp1 ⊢
          rw [hp1]
  · have hsorted : ((uaGroups (summaryEvents db startT endT fl)).insertionSort
        uaCountGE).Pairwise uaCountGE :=
      List.sorted_insertionSort uaCountGE _
    have htake : (((uaGroups (summaryEvents db startT endT fl)).insertionSort
        uaCountGE).take 10).Pairwise uaCountGE :=
      List.Pairwise.sublist (List.take_sublist 10 _) hsorted
    show ((((uaGroups (summaryEvents db startT endT fl)).insertionSort
      uaCountGE).take 10).filterMap presentUa).Pairwise _
    apply List.Pairwise.filterMap presentUa ?_ htake
    intro a a2 hR b hb b2 hb2
    rw [presentUa_downloads (Option.mem_def.mp hb),
      presentUa_downloads (Option.mem_def.mp hb2)]
    exact hR

-- ===========================================================================
-- C1/C2 machinery: the bucket map as an association list
-- ===========================================================================

/-- Association-list lookup keyed by the integer bucket. -/
def alookup {α : Type} (m : List (Int × α)) (k : Int) : Option α :=
  (m.find? (fun e => decide (e.1 = k))).map (fun e => e.2)

theorem alookup_nil {α : Type} (k : Int) : alookup ([] : List (Int × α)) k = none := rfl

theorem alookup_cons {α : Type} (e : Int × α) (m : List (Int × α)) (k : Int) :
    alookup (e :: m) k = if e.1 = k then some e.2 else alookup m k := by
  unfold alookup
  by_cases h : e.1 = k
  · rw [List.find?_cons_of_pos]
    · rw [if_pos h]
      rfl
    · simpa using h
  · rw [List.find?_cons_of_neg]
    · rw [if_neg h]
    · simpa using h

theorem alookup_of_mem_nodup {α : Type} {m : List (Int × α)}
    (hnd : (m.map Prod.fst).Nodup) {e : Int × α} (he : e ∈ m) :
    alookup m e.1 = some e.2 := by
  induction m with
  | nil => cases he
  | cons hd tl ih =>
    rw [List.map_cons, List.nodup_cons] at hnd
    rcases List.mem_cons.mp he with rfl | htl
    · rw [alookup_cons, if_pos rfl]
    · rw [alookup_cons]
      have hne : hd.1 ≠ e.1 := by
        intro hc
        exact hnd.1 (hc.symm ▸ List.mem_map_of_mem Prod.fst htl)
      rw [if_neg hne]
      exact ih hnd.2 htl

theorem stepRow_alookup (cap : Nat) (m : List (Int × BucketAcc)) (r : TSRow)
    (k : Int) :
    alookup (stepRow cap m r) k =
      if k = r.time_bucket then
        some (updAcc cap ((alookup m k).getD { files := [], total := 0, unique := 0 }) r)
      else alookup m k := by
  induction m with
  | nil =>
    show alookup [(r.time_bucket, updAcc cap { files := [], total := 0, unique := 0 } r)] k = _
    by_cases h : k = r.time_bucket
    · rw [if_pos h, alookup_cons, if_pos h.symm]
      rfl
    · rw [if_neg h, alookup_cons, if_neg (fun hc => h hc.symm)]
  | cons hd tl ih =>
    obtain ⟨k0, acc0⟩ := hd
    show alookup (if k0 = r.time_bucket then (k0, updAcc cap acc0 r) :: tl
      else (k0, acc0) :: stepRow cap tl r) k = _
    by_cases h0 : k0 = r.time_bucket
    · rw [if_pos h0]
      by_cases hk : k0 = k
      · rw [alookup_cons, if_pos hk, if_pos (by rw [← hk, h0]), alookup_cons, if_pos hk]
        rfl
      · rw [alookup_cons, if_neg hk]
        by_cases hk2 : k = r.time_bucket
        · exact absurd (h0.trans hk2.symm) hk
        · rw [if_neg hk2, alookup_cons, if_neg hk]
    · rw [if_neg h0, alookup_cons]
      by_cases hk : k0 = k
      · rw [if_pos hk, if_neg (fun hc => h0 (hk.trans hc)), alookup_cons, if_pos hk]
      · have hcons : alookup ((k0, acc0) :: tl) k = alookup tl k := by
          rw [alookup_cons, if_neg hk]
        rw [if_neg hk, ih, hcons]

theorem foldl_stepRow_some (cap : Nat) :
    ∀ (rows : List TSRow) (m : List (Int × BucketAcc)) (k : Int) (a : BucketAcc),
      alookup m k = some a →
      alookup (rows.foldl (stepRow cap) m) k =
        some ((rows.filter (fun r => decide (r.time_bucket = k))).foldl (updAcc cap) a) := by
  intro rows
  induction rows with
  | nil => intro m k a h; simpa using h
  | cons r rest ih =>
    intro m k a h
    rw [List.foldl_cons]
    by_cases hk : r.time_bucket = k
    · rw [List.filter_cons_of_pos (by simpa using hk), List.foldl_cons]
      apply ih
      rw [stepRow_alookup, if_pos hk.symm, h]
      rfl
    · rw [List.filter_cons_of_neg (by simpa using hk)]
      apply ih
      rw [stepRow_alookup, if_neg (fun hc => hk hc.symm)]
      exact h

theorem foldl_stepRow_none_mem (cap : Nat) :
    ∀ (rows : List TSRow) (m : List (Int × BucketAcc)) (k : Int),
      alookup m k = none → (∃ r, r ∈ rows ∧ r.time_bucket = k) →
      alookup (rows.foldl (stepRow cap) m) k =
        some ((rows.filter (fun r => decide (r.time_bucket = k))).foldl (updAcc cap)
          { files := [], total := 0, unique := 0 }) := by
  intro rows
  induction rows with
  | nil =>
    intro m k _ hex
    obtain ⟨r, hr, -⟩ := hex
    cases hr
  | cons r rest ih =>
    intro m k h hex
    rw [List.foldl_cons]
    by_cases hk : r.time_bucket = k
    · rw [List.filter_cons_of_pos (by simpa using hk), List.foldl_cons]
      apply foldl_stepRow_some
      rw [stepRow_alookup, if_pos hk.symm, h]
      rfl
    · rw [List.filter_cons_of_neg (by simpa using hk)]
      apply ih
      · rw [stepRow_alookup, if_neg (fun hc => hk hc.symm)]
        exact h
      · obtain ⟨r2, hr2, hr2k⟩ := hex
        rcases List.mem_cons.mp hr2 with rfl | h2
        · exact absurd hr2k hk
        · exact ⟨r2, h2, hr2k⟩

theorem foldl_stepRow_not_mem (cap : Nat) :
    ∀ (rows : List TSRow) (m : List (Int × BucketAcc)) (k : Int),
      alookup m k = none → (∀ r ∈ rows, r.time_bucket ≠ k) →
      alookup (rows.foldl (stepRow cap) m) k = none := by
  intro rows
  induction rows with
  | nil => intro m k h _; simpa using h
  | cons r rest ih =>
    intro m k h hall
    rw [List.foldl_cons]
    apply ih
    · rw [stepRow_alookup, if_neg (fun hc => hall r (List.mem_cons_self _ _) hc.symm)]
      exact h
    · exact fun r2 h2 => hall r2 (List.mem_cons_of_mem _ h2)

theorem foldl_updAcc_total (cap : Nat) :
    ∀ (fs : List TSRow) (a : BucketAcc),
      (fs.foldl (updAcc cap) a).total = a.total + (fs.map (fun r => r.downloads)).sum := by
  intro fs
  induction fs with
  | nil => intro a; simp
  | cons r rest ih =>
    intro a
    rw [List.foldl_cons, ih]
    show (updAcc cap a r).total + _ = _
    unfold updAcc
    dsimp only
    rw [List.map_cons, List.sum_cons]
    omega

theorem foldl_updAcc_unique (cap : Nat) :
    ∀ (fs : List TSRow) (a : BucketAcc), (fs.foldl (updAcc cap) a).unique = a.unique := by
  intro fs
  induction fs with
  | nil => intro a; rfl
  | cons r rest ih =>
    intro a
    rw [List.foldl_cons, ih]
    rfl

theorem foldl_updAcc_files (cap : Nat) :
    ∀ (fs : List TSRow) (a : BucketAcc),
      (fs.foldl (updAcc cap) a).files =
        a.files ++ (fs.map statOf).take (cap - a.files.length) := by
  intro fs
  induction fs with
  | nil => intro a; simp
  | cons r rest ih =>
    intro a
    rw [List.foldl_cons, ih]
    show (updAcc cap a r).files ++
        (rest.map statOf).take (cap - (updAcc cap a r).files.length) = _
    unfold updAcc
    dsimp only
    by_cases h : a.files.length < cap
    · rw [if_pos h, List.append_assoc, List.length_append]
      congr 1
      have hpos : cap - a.files.length = (cap - (a.files.length + [statOf r].length)) + 1 := by
        simp only [List.length_singleton]
        omega
      rw [List.map_cons, hpos, List.take_succ_cons]
      rfl
    · rw [if_neg h]
      have h0 : cap - a.files.length = 0 := by omega
      rw [h0]
      simp

theorem stepRow_keys (cap : Nat) (m : List (Int × BucketAcc)) (r : TSRow) :
    (stepRow cap m r).map Prod.fst =
      if r.time_bucket ∈ m.map Prod.fst then m.map Prod.fst
      else m.map Prod.fst ++ [r.time_bucket] := by
  induction m with
  | nil => simp [stepRow]
  | cons hd tl ih =>
    obtain ⟨k0, acc0⟩ := hd
    show (if k0 = r.time_bucket then (k0, updAcc cap acc0 r) :: tl
      else (k0, acc0) :: stepRow cap tl r).map Prod.fst = _
    by_cases h0 : k0 = r.time_bucket
    · rw [if_pos h0]
      have hmem : r.time_bucket ∈ ((k0, acc0) :: tl).map Prod.fst := by
        rw [List.map_cons]
        exact List.mem_cons.mpr (Or.inl h0.symm)
      rw [if_pos hmem]
      rfl
    · rw [if_neg h0, List.map_cons, List.map_cons, ih]
      by_cases hm : r.time_bucket ∈ tl.map Prod.fst
      · rw [if_pos hm, if_pos (List.mem_cons_of_mem _ hm)]
      · rw [if_neg hm, if_neg (fun hc => by
          rcases List.mem_cons.mp hc with hc1 | hc2
          · exact h0 hc1.symm
          · exact hm hc2)]
        rfl

theorem stepRow_keys_nodup (cap : Nat) (m : List (Int × BucketAcc)) (r : TSRow)
    (h : ((m.map Prod.fst)).Nodup) : ((stepRow cap m r).map Prod.fst).Nodup := by
  rw [stepRow_keys]
  split
  · exact h
  next hnm =>
    rw [List.nodup_append]
    exact ⟨h, List.nodup_singleton _, by simpa using hnm⟩

theorem buildMap_keys_nodup (cap : Nat) :
    ∀ (rows : List TSRow) (m : List (Int × BucketAcc)),
      ((m.map Prod.fst)).Nodup → (((rows.foldl (stepRow cap) m)).map Prod.fst).Nodup := by
  intro rows
  induction rows with
  | nil => intro m h; exact h
  | cons r rest ih =>
    intro m h
    rw [List.foldl_cons]
    exact ih _ (stepRow_keys_nodup cap m r h)

theorem setUnique_alookup (m : List (Int × BucketAcc)) (k : Int) (u : Nat)
    (j : Int) :
    alookup (setUnique m k u) j =
      if j = k then (alookup m j).map (fun a => { a with unique := u })
      else alookup m j := by
  induction m with
  | nil =>
    by_cases h : j = k
    · rw [if_pos h]; rfl
    · rw [if_neg h]; rfl
  | cons e tl ih =>
    show alookup ((if e.1 = k then (e.1, { e.2 with unique := u }) else e) ::
      setUnique tl k u) j = _
    by_cases he : e.1 = k
    · rw [if_pos he, alookup_cons]
      by_cases hej : e.1 = j
      · rw [if_pos hej, if_pos (hej.symm.trans he), alookup_cons, if_pos hej]
        rfl
      · have hc : alookup (e :: tl) j = alookup tl j := by
          rw [alookup_cons, if_neg hej]
        rw [if_neg hej, ih, hc]
    · rw [if_neg he, alookup_cons]
      by_cases hej : e.1 = j
      · have hjk : j ≠ k := fun hc2 => he (hej.trans hc2)
        rw [if_pos hej, if_neg hjk, alookup_cons, if_pos hej]
      · have hc : alookup (e :: tl) j = alookup tl j := by
          rw [alookup_cons, if_neg hej]
        rw [if_neg hej, ih, hc]

theorem setUnique_keys (m : List (Int × BucketAcc)) (k : Int) (u : Nat) :
    (setUnique m k u).map Prod.fst = m.map Prod.fst := by
  unfold setUnique
  rw [List.map_map]
  apply List.map_congr_left
  intro e _
  show (if e.1 = k then ((e.1, { e.2 with unique := u }) : Int × BucketAcc) else e).1 = e.1
  split <;> rfl

theorem mergeUnique_keys (urs : List (Int × Nat)) :
    ∀ (m : List (Int × BucketAcc)), (mergeUnique m urs).map Prod.fst = m.map Prod.fst := by
  induction urs with
  | nil => intro m; rfl
  | cons r rest ih =>
    intro m
    show (mergeUnique (setUnique m r.1 r.2) rest).map Prod.fst = _
    rw [ih, setUnique_keys]

theorem mergeUnique_alookup_none (urs : List (Int × Nat)) :
    ∀ (m : List (Int × BucketAcc)) (k : Int),
      urs.find? (fun r => decide (r.1 = k)) = none →
      alookup (mergeUnique m urs) k = alookup m k := by
  induction urs with
  | nil => intro m k _; rfl
  | cons r0 rest ih =>
    intro m k h
    have hr0 : ¬(r0.1 = k) := by
      intro hc
      rw [List.find?_cons_of_pos _ (by simpa using hc)] at h
      exact Option.noConfusion h
    rw [List.find?_cons_of_neg _ (by simpa using hr0)] at h
    show alookup (mergeUnique (setUnique m r0.1 r0.2) rest) k = _
    rw [ih _ k h, setUnique_alookup, if_neg (fun hc => hr0 hc.symm)]

theorem mergeUnique_alookup_some (urs : List (Int × Nat)) :
    ∀ (m : List (Int × BucketAcc)) (k : Int) (r0 : Int × Nat),
      (urs.map Prod.fst).Nodup →
      urs.find? (fun r => decide (r.1 = k)) = some r0 →
      alookup (mergeUnique m urs) k =
        (alookup m k).map (fun a => { a with unique := r0.2 }) := by
  induction urs with
  | nil => intro m k r0 _ h; exact Option.noConfusion h
  | cons r1 rest ih =>
    intro m k r0 hnd h
    rw [List.map_cons, List.nodup_cons] at hnd
    show alookup (mergeUnique (setUnique m r1.1 r1.2) rest) k = _
    by_cases hr1 : r1.1 = k
    · rw [List.find?_cons_of_pos _ (by simpa using hr1)] at h
      injection h with h1
      subst h1
      have hrest : rest.find? (fun r => decide (r.1 = k)) = none := by
        rw [List.find?_eq_none]
        intro x hx
        simp only [decide_eq_true_eq]
        intro hc
        exact hnd.1 ((hc.trans hr1.symm) ▸ List.mem_map_of_mem Prod.fst hx)
      rw [mergeUnique_alookup_none rest _ k hrest, setUnique_alookup,
        if_pos hr1.symm]
    · rw [List.find?_cons_of_neg _ (by simpa using hr1)] at h
      rw [ih _ k r0 hnd.2 h, setUnique_alookup, if_neg (fun hc => hr1 hc.symm)]

theorem find?_key_of_mem_nodup {α : Type} {m : List (Int × α)}
    (hnd : (m.map Prod.fst).Nodup) {e : Int × α} (he : e ∈ m) :
    m.find? (fun r => decide (r.1 = e.1)) = some e := by
  induction m with
  | nil => cases he
  | cons hd tl ih =>
    rw [List.map_cons, List.nodup_cons] at hnd
    rcases List.mem_cons.mp he with rfl | htl
    · rw [List.find?_cons_of_pos]
      simp
    · rw [List.find?_cons_of_neg]
      · exact ih hnd.2 htl
      · simp only [decide_eq_true_eq]
        intro hc
        exact hnd.1 (hc ▸ List.mem_map_of_mem Prod.fst htl)

theorem keys_map_pair {α : Type} (g : Int → α) : ∀ (l : List Int),
    ((l.map (fun b => (b, g b))).map Prod.fst) = l
  | [] => rfl
  | b :: tl => by
    simp only [List.map_cons]
    rw [keys_map_pair g tl]

theorem uniqueRows_keys_nodup (scale : AnalyticsScale) (evs : List DownloadEvent) :
    ((uniqueRows scale evs).map Prod.fst).Nodup := by
  unfold uniqueRows
  have hperm := (List.perm_insertionSort bucketKeyLE
    (((evs.map (bucketCol scale)).dedup).map (fun b =>
      (b, ((evs.filter (fun d => decide (bucketCol scale d = b))).map
        (fun d => d.ip_address)).dedup.length)))).map Prod.fst
  have hk := keys_map_pair (fun b =>
    ((evs.filter (fun d => decide (bucketCol scale d = b))).map
      (fun d => d.ip_address)).dedup.length) ((evs.map (bucketCol scale)).dedup)
  rw [hperm.nodup_iff, hk]
  exact List.nodup_dedup _

theorem uniqueRows_mem_val {scale : AnalyticsScale} {evs : List DownloadEvent}
    {k : Int} {u : Nat} (h : (k, u) ∈ uniqueRows scale evs) :
    u = ((evs.filter (fun d => decide (bucketCol scale d = k))).map
      (fun d => d.ip_address)).dedup.length := by
  unfold uniqueRows at h
  have h2 := (List.perm_insertionSort bucketKeyLE _).mem_iff.mp h
  obtain ⟨b, -, hbe⟩ := List.mem_map.mp h2
  injection hbe with hb1 hb2
  rw [← hb2, hb1]

theorem uniqueRows_mem_of_bucket {scale : AnalyticsScale} {evs : List DownloadEvent}
    {k : Int} (h : k ∈ evs.map (bucketCol scale)) :
    (k, ((evs.filter (fun d => decide (bucketCol scale d = k))).map
      (fun d => d.ip_address)).dedup.length) ∈ uniqueRows scale evs := by
  unfold uniqueRows
  apply (List.perm_insertionSort bucketKeyLE _).mem_iff.mpr
  apply List.mem_map.mpr
  exact ⟨k, List.mem_dedup.mpr h, rfl⟩

theorem groupRows_mem {db : DB} {scale : AnalyticsScale} {evs : List DownloadEvent}
    {r : TSRow} (h : r ∈ groupRows db scale evs) :
    ∃ key, key ∈ evs.map (fun d => (bucketCol scale d, eventTuple d)) ∧
      r.time_bucket = key.1 ∧
      ((r.bucket, r.remote_path, r.remote_filename, r.remote_version) :
        String × String × String × String) = key.2 ∧
      r.downloads = (evs.filter (fun d => decide (bucketCol scale d = key.1) &&
          decide (eventTuple d = key.2))).length *
        max ((db.files.filter (fun f => decide (locationTuple f = key.2))).length) 1 ∧
      r.unique_downloads = (((evs.filter (fun d => decide (bucketCol scale d = key.1) &&
          decide (eventTuple d = key.2))).map (fun d => d.ip_address)).dedup).length := by
  unfold groupRows at h
  obtain ⟨key, hkey, hkeyr⟩ := List.mem_map.mp h
  obtain ⟨k1, k2a, k2b, k2c, k2d⟩ := key
  refine ⟨(k1, k2a, k2b, k2c, k2d), List.mem_dedup.mp hkey, ?_, ?_, ?_, ?_⟩ <;>
    rw [← hkeyr]

theorem uniqueRows_mem_val2 {scale : AnalyticsScale} {evs : List DownloadEvent}
    {r : Int × Nat} (h : r ∈ uniqueRows scale evs) :
    r.2 = ((evs.filter (fun d => decide (bucketCol scale d = r.1))).map
      (fun d => d.ip_address)).dedup.length := by
  obtain ⟨k, u⟩ := r
  exact uniqueRows_mem_val h

theorem sortedRows_mem {db : DB} {scale : AnalyticsScale}
    {evs : List DownloadEvent} {r : TSRow} :
    r ∈ sortedRows db scale evs ↔ r ∈ groupRows db scale evs := by
  unfold sortedRows
  exact (List.perm_insertionSort rowLE _).mem_iff

theorem getTimeSeries_bucket_spec (db : DB) (startT endT : Int)
    (scale : AnalyticsScale) (fl : FileFilter) (cap : Nat)
    (b : TimeSeriesBucket)
    (hb : b ∈ getTimeSeries db startT endT scale fl cap) :
    b.files = (((sortedRows db scale (eventsInRange db scale fl
        (toBucket scale startT) (toBucket scale endT))).filter
        (fun r => decide (r.time_bucket = b.timestamp))).map statOf).take cap ∧
    b.total_downloads = (((sortedRows db scale (eventsInRange db scale fl
        (toBucket scale startT) (toBucket scale endT))).filter
        (fun r => decide (r.time_bucket = b.timestamp))).map (fun r => r.downloads)).sum ∧
    b.total_unique_downloads = (((eventsInRange db scale fl
        (toBucket scale startT) (toBucket scale endT)).filter
        (fun d => decide (bucketCol scale d = b.timestamp))).map
        (fun d => d.ip_address)).dedup.length := by
  unfold getTimeSeries at hb
  dsimp only at hb
  set evs := eventsInRange db scale fl (toBucket scale startT) (toBucket scale endT) with hevs
  set srows := sortedRows db scale evs with hsrows
  set m := buildMap cap srows with hm
  set m2 := mergeUnique m (uniqueRows scale evs) with hm2
  obtain ⟨e, he, heb⟩ := List.mem_map.mp hb
  have hemem : e ∈ m2 := (List.perm_insertionSort entryLE m2).mem_iff.mp he
  have hnodup : (m2.map Prod.fst).Nodup := by
    rw [hm2, mergeUnique_keys, hm]
    unfold buildMap
    exact buildMap_keys_nodup cap srows [] (by simp)
  have halk : alookup m2 e.1 = some e.2 := alookup_of_mem_nodup hnodup hemem
  have hts : b.timestamp = e.1 := by rw [← heb]
  rcases hfind : (uniqueRows scale evs).find? (fun r => decide (r.1 = e.1)) with _ | r0
  · exfalso
    have halm : alookup m e.1 = some e.2 := by
      rw [← mergeUnique_alookup_none (uniqueRows scale evs) m e.1 hfind, ← hm2]
      exact halk
    by_cases hex : ∃ r, r ∈ srows ∧ r.time_bucket = e.1
    · obtain ⟨r, hr, hrk⟩ := hex
      have hrg : r ∈ groupRows db scale evs := sortedRows_mem.mp hr
      obtain ⟨key, hkey, hk1, -, -, -⟩ := groupRows_mem hrg
      obtain ⟨d, hd, hdk⟩ := List.mem_map.mp hkey
      have hbk : e.1 ∈ evs.map (bucketCol scale) := by
        apply List.mem_map.mpr
        refine ⟨d, hd, ?_⟩
        have : (bucketCol scale d, eventTuple d).1 = key.1 := by rw [hdk]
        rw [← hrk, hk1, ← this]
      have hmem2 := uniqueRows_mem_of_bucket hbk
      have hno := List.find?_eq_none.mp hfind _ hmem2
      simp at hno
    · have hnone : alookup m e.1 = none := by
        rw [hm]
        unfold buildMap
        exact foldl_stepRow_not_mem cap srows [] e.1 (alookup_nil e.1)
          (fun r hr hc => hex ⟨r, hr, hc⟩)
      rw [hnone] at halm
      exact Option.noConfusion halm
  · have hur_nodup := uniqueRows_keys_nodup scale evs
    have halm2 := mergeUnique_alookup_some (uniqueRows scale evs) m e.1 r0 hur_nodup hfind
    rw [← hm2, halk] at halm2
    rcases hma : alookup m e.1 with _ | a
    · rw [hma] at halm2
      exact Option.noConfusion halm2
    · rw [hma] at halm2
      rw [Option.map_some'] at halm2
      injection halm2 with he2
      by_cases hex : ∃ r, r ∈ srows ∧ r.time_bucket = e.1
      · have hval : alookup m e.1 = some ((srows.filter
            (fun r => decide (r.time_bucket = e.1))).foldl (updAcc cap)
            { files := [], total := 0, unique := 0 }) := by
          rw [hm]
          unfold buildMap
          exact foldl_stepRow_none_mem cap srows [] e.1 (alookup_nil e.1) hex
        rw [hma] at hval
        injection hval with ha
        have hr0mem : r0 ∈ uniqueRows scale evs := List.mem_of_find?_eq_some hfind
        have hr0key : r0.1 = e.1 := by simpa using List.find?_some hfind
        have hr0val := uniqueRows_mem_val2 hr0mem
        refine ⟨?_, ?_, ?_⟩
        · rw [hts, show b.files = e.2.files from by rw [← heb], he2]
          show a.files = ((srows.filter
            (fun r => decide (r.time_bucket = e.1))).map statOf).take cap
          rw [ha, foldl_updAcc_files]
          simp
        · rw [hts, show b.total_downloads = e.2.total from by rw [← heb], he2]
          show a.total = ((srows.filter
            (fun r => decide (r.time_bucket = e.1))).map (fun r => r.downloads)).sum
          rw [ha, foldl_updAcc_total]
          simp
        · rw [hts, show b.total_unique_downloads = e.2.unique from by rw [← heb], he2]
          show r0.2 = _
          rw [hr0val, hr0key]
      · have hnone : alookup m e.1 = none := by
          rw [hm]
          unfold buildMap
          exact foldl_stepRow_not_mem cap srows [] e.1 (alookup_nil e.1)
            (fun r hr hc => hex ⟨r, hr, hc⟩)
        rw [hma] at hnone
        exact Option.noConfusion hnone

-- ===========================================================================
-- C1: exact totals with capped detail lists
-- ===========================================================================

/-- C1: every emitted time-series bucket reports as total_downloads the sum
of the download counts of ALL per-tuple groups of that bucket, while its
detail list is the cap-long prefix of those groups sorted by downloads
descending: it never exceeds the cap and consists of the cap
highest-download tuples. -/
theorem timeseries_total_exact (db : DB) (startT endT : Int)
    (scale : AnalyticsScale) (fl : FileFilter) (cap : Nat)
    (b : TimeSeriesBucket) (hb : b ∈ getTimeSeries db startT endT scale fl cap) :
    b.total_downloads = (((groupRows db scale (eventsInRange db scale fl
        (toBucket scale startT) (toBucket scale endT))).filter
        (fun r => decide (r.time_bucket = b.timestamp))).map (fun r => r.downloads)).sum ∧
    b.files.length ≤ cap ∧
    b.files = (((sortedRows db scale (eventsInRange db scale fl
        (toBucket scale startT) (toBucket scale endT))).filter
        (fun r => decide (r.time_bucket = b.timestamp))).map statOf).take cap ∧
    b.files.Pairwise (fun x y => y.downloads ≤ x.downloads) := by
  obtain ⟨hfiles, htotal, -⟩ :=
    getTimeSeries_bucket_spec db startT endT scale fl cap b hb
  set evs := eventsInRange db scale fl (toBucket scale startT) (toBucket scale endT)
    with hevs
  have hsorted : (sortedRows db scale evs).Pairwise rowLE :=
    List.sorted_insertionSort rowLE (groupRows db scale evs)
  refine ⟨?_, ?_, hfiles, ?_⟩
  · rw [htotal]
    have hperm := ((List.perm_insertionSort rowLE (groupRows db scale evs)).filter
      (fun r => decide (r.time_bucket = b.timestamp))).map (fun r => r.downloads)
    exact hperm.sum_eq
  · rw [hfiles]
    exact List.length_take_le _ _
  · rw [hfiles]
    have hfilterSorted : ((sortedRows db scale evs).filter
        (fun r => decide (r.time_bucket = b.timestamp))).Pairwise rowLE :=
      List.Pairwise.sublist (List.filter_sublist _) hsorted
    have hdl : ((sortedRows db scale evs).filter
        (fun r => decide (r.time_bucket = b.timestamp))).Pairwise
        (fun x y => y.downloads ≤ x.downloads) := by
      apply List.Pairwise.imp_of_mem ?_ hfilterSorted
      intro x y hx hy hr
      have hxk : x.time_bucket = b.timestamp := by simpa using List.of_mem_filter hx
      have hyk : y.time_bucket = b.timestamp := by simpa using List.of_mem_filter hy
      rcases hr with hlt | ⟨-, hle⟩
      · rw [hxk, hyk] at hlt
        exact absurd hlt (lt_irrefl _)
      · exact hle
    exact List.Pairwise.sublist (List.take_sublist _ _)
      (List.Pairwise.map statOf (fun a a2 h => h) hdl)

/-- A download event at epoch instant 0 with identity i, client IP ip, and
remote path p, as createDownload would store it. -/
def dayEvent (i ip p : String) : DownloadEvent :=
  { id := i, bucket := "b", remote_path := p, remote_filename := "n",
    remote_version := "v", ip_address := ip, user_agent := none,
    downloaded_at := 0, hour_bucket := 0, day_bucket := 0, month_bucket := 197001 }

/-- Three downloads in one day bucket: tuple p1 twice (IPs X, Y), p2 once. -/
def c1Db : DB :=
  { files := [], fileTags := [],
    downloads := [dayEvent "d1" "X" "p1", dayEvent "d2" "Y" "p1", dayEvent "d3" "X" "p2"] }

/-- The single bucket emitted for c1Db at day scale with cap 1: the detail
list is truncated to the top tuple while the total still counts all three. -/
def c1Bucket : TimeSeriesBucket :=
  { timestamp := 0,
    files := [{ id := none, bucket := "b", remote_path := "p1", remote_filename := "n", remote_version := "v", downloads := 2, unique_downloads := 2 }],
    total_downloads := 3, total_unique_downloads := 2 }

/-- Witness for C1 at the concrete store with cap 1. -/
theorem timeseries_total_exact_witness :
    c1Bucket.total_downloads = (((groupRows c1Db .day (eventsInRange c1Db .day {}
        (toBucket .day 0) (toBucket .day 0))).filter
        (fun r => decide (r.time_bucket = c1Bucket.timestamp))).map
        (fun r => r.downloads)).sum ∧
    c1Bucket.files.length ≤ 1 ∧
    c1Bucket.files = (((sortedRows c1Db .day (eventsInRange c1Db .day {}
        (toBucket .day 0) (toBucket .day 0))).filter
        (fun r => decide (r.time_bucket = c1Bucket.timestamp))).map statOf).take 1 ∧
    c1Bucket.files.Pairwise (fun x y => y.downloads ≤ x.downloads) :=
  timeseries_total_exact c1Db 0 0 .day {} 1 c1Bucket (by
    rw [show getTimeSeries c1Db 0 0 .day {} 1 = [c1Bucket] from rfl]
    exact List.mem_cons_self _ _)

-- ===========================================================================
-- C2: cross-tuple unique counts vs per-tuple unique counts
-- ===========================================================================

/-- Two downloads by one IP of two distinct tuples in one day bucket. -/
def c2Db : DB :=
  { files := [], fileTags := [],
    downloads := [dayEvent "e1" "X" "p1", dayEvent "e2" "X" "p2"] }

/-- C2: every emitted bucket's total_unique_downloads counts the distinct IP
addresses across ALL admitted events of that bucket (each IP once per bucket),
while each detail row's unique_downloads counts the distinct IPs of its own
tuple; consequently, at a concrete store where one IP downloads two distinct
files in one bucket, the per-file unique counts sum to 2 while the bucket's
total unique count is 1. -/
theorem timeseries_unique_exact (db : DB) (startT endT : Int)
    (scale : AnalyticsScale) (fl : FileFilter) (cap : Nat)
    (b : TimeSeriesBucket) (hb : b ∈ getTimeSeries db startT endT scale fl cap) :
    b.total_unique_downloads = (((eventsInRange db scale fl
        (toBucket scale startT) (toBucket scale endT)).filter
        (fun d => decide (bucketCol scale d = b.timestamp))).map
        (fun d => d.ip_address)).dedup.length ∧
    (∀ fstat ∈ b.files,
      fstat.unique_downloads = (((eventsInRange db scale fl
        (toBucket scale startT) (toBucket scale endT)).filter
        (fun d => decide (bucketCol scale d = b.timestamp) &&
          decide (eventTuple d = (fstat.bucket, fstat.remote_path,
            fstat.remote_filename, fstat.remote_version)))).map
        (fun d => d.ip_address)).dedup.length) ∧
    ((getTimeSeries c2Db 0 0 .day {} 100).map
      (fun bb => ((bb.files.map (fun s => s.unique_downloads)).sum,
        bb.total_unique_downloads))) = [(2, 1)] := by
  obtain ⟨hfiles, -, huniq⟩ :=
    getTimeSeries_bucket_spec db startT endT scale fl cap b hb
  refine ⟨huniq, ?_, by rfl⟩
  intro fstat hf
  rw [hfiles] at hf
  have hf2 := List.mem_of_mem_take hf
  obtain ⟨r, hr, hrf⟩ := List.mem_map.mp hf2
  have hrmem := List.mem_of_mem_filter hr
  have hrk : r.time_bucket = b.timestamp := by simpa using List.of_mem_filter hr
  obtain ⟨key, -, hk1, hk2, -, hku⟩ := groupRows_mem (sortedRows_mem.mp hrmem)
  rw [← hrf]
  show r.unique_downloads = (((eventsInRange db scale fl
    (toBucket scale startT) (toBucket scale endT)).filter
    (fun d => decide (bucketCol scale d = b.timestamp) &&
      decide (eventTuple d = (r.bucket, r.remote_path,
        r.remote_filename, r.remote_version)))).map
    (fun d => d.ip_address)).dedup.length
  rw [hku, ← hk1, hrk, ← hk2]

/-- Witness for C2 at the concrete store (cap 100). -/
theorem timeseries_unique_exact_witness :
    c1Bucket.total_unique_downloads = (((eventsInRange c1Db .day {}
        (toBucket .day 0) (toBucket .day 0)).filter
        (fun d => decide (bucketCol .day d = c1Bucket.timestamp))).map
        (fun d => d.ip_address)).dedup.length ∧
    (∀ fstat ∈ c1Bucket.files,
      fstat.unique_downloads = (((eventsInRange c1Db .day {}
        (toBucket .day 0) (toBucket .day 0)).filter
        (fun d => decide (bucketCol .day d = c1Bucket.timestamp) &&
          decide (eventTuple d = (fstat.bucket, fstat.remote_path,
            fstat.remote_filename, fstat.remote_version)))).map
        (fun d => d.ip_address)).dedup.length) ∧
    ((getTimeSeries c2Db 0 0 .day {} 100).map
      (fun bb => ((bb.files.map (fun s => s.unique_downloads)).sum,
        bb.total_unique_downloads))) = [(2, 1)] :=
  timeseries_unique_exact c1Db 0 0 .day {} 1 c1Bucket (by
    rw [show getTimeSeries c1Db 0 0 .day {} 1 = [c1Bucket] from rfl]
    exact List.mem_cons_self _ _)

-- ===========================================================================
-- C4 counterexample: a null user agent occupies a top-10 slot
-- ===========================================================================

/-- A download event with the given id (doubling as the client IP) and user
agent, inside the range [0, 1000]. -/
def uaEvent (i : String) (ua : Option String) : DownloadEvent :=
  { id := i, bucket := "b", remote_path := "p", remote_filename := "n",
    remote_version := "v", ip_address := i, user_agent := ua,
    downloaded_at := 5, hour_bucket := 0, day_bucket := 0, month_bucket := 197001 }

/-- Two null-user-agent downloads plus ten downloads with ten distinct user
agents. -/
def c4Db : DB :=
  { files := [], fileTags := [],
    downloads := [uaEvent "n1" none, uaEvent "n2" none,
      uaEvent "a0" (some "u0"), uaEvent "a1" (some "u1"),
      uaEvent "a2" (some "u2"), uaEvent "a3" (some "u3"),
      uaEvent "a4" (some "u4"), uaEvent "a5" (some "u5"),
      uaEvent "a6" (some "u6"), uaEvent "a7" (some "u7"),
      uaEvent "a8" (some "u8"), uaEvent "a9" (some "u9")] }

/-- C4 counterexample: the range holds 10 distinct non-null user agents, yet
only 9 are returned — the null user-agent group (with the highest count)
occupies one of the 10 LIMIT slots before the null filter runs, refuting the
claim that null user agents never occupy a ranking slot. -/
theorem summary_null_ua_occupies_slot :
    ((uaGroups (summaryEvents c4Db 0 1000 {})).filter
      (fun g => g.1.isSome)).length = 10 ∧
    (getSummary c4Db 0 1000 {}).top_user_agents.length = 9 :=
  ⟨rfl, rfl⟩

end R2Index
